import Mathlib

/-!
# Tetris engine (`tetris_1.cpp`): shallow embedding and verified properties

The game logic of `tetris_1.cpp` is embedded as pure functions on an explicit
game state.  Rendering (`draw`, `printBlock`, ...) is left out: it never writes
to the state.

Modelling conventions
* C++ `int` values are unbounded `Int` in the functions on game states: every
  position the engine handles stays within a few units of the 30x30 grid and
  the score grows by 100 per cleared row, so no arithmetic of a game comes near
  the 32-bit range.  `isValidMove`, whose arguments are arbitrary `int` values,
  is also given with its additions in 32-bit arithmetic (`isValidMove32`,
  `wrapInt`); the two agree whenever no addition overflows (`isValidMove32_eq`).
* `int shape[4][4]` is a total map `Fin 4 → Fin 4 → Int`.
* `vector<vector<int>>` is `List (List Int)`.  A read is `cellAt` (the reads of
  `isValidMove` and `clearLines` are guarded by `WIDTH`/`HEIGHT` and are in
  range on a `HEIGHT x WIDTH` grid).  The unguarded writes of `mergePiece` are
  modelled by `writeCell`, which yields `none` for an index outside the vector
  (undefined behaviour in the program).
* `rand()` is a parameter `rand : Nat → Nat`, the sequence of values the
  generator returns; the state counts the draws made so far.
* `getch()` is the parameter `ch` of `handleInput`.
* The `while` loop of `calculateHardDropPosition` takes a fuel argument and
  yields `none` when the fuel runs out.
-/

namespace Tetris

/-! ## Constants -/

/-- Width of the game grid. -/
def WIDTH : Nat := 30

/-- Height of the game grid. -/
def HEIGHT : Nat := 30

/-- Size of each tetromino block (4x4). -/
abbrev BLOCK_SIZE : Nat := 4

/-- A 4x4 piece mask, `int shape[BLOCK_SIZE][BLOCK_SIZE]`. -/
abbrev Mask := Fin BLOCK_SIZE → Fin BLOCK_SIZE → Int

/-- The seven tetromino templates `SHAPES[7][4][4]`: I, O, T, S, Z, J, L. -/
def SHAPES : Fin 7 → Mask :=
  ![![![0,0,0,0], ![1,1,1,1], ![0,0,0,0], ![0,0,0,0]],
    ![![0,0,0,0], ![0,1,1,0], ![0,1,1,0], ![0,0,0,0]],
    ![![0,0,0,0], ![0,1,0,0], ![1,1,1,0], ![0,0,0,0]],
    ![![0,0,0,0], ![0,1,1,0], ![1,1,0,0], ![0,0,0,0]],
    ![![0,0,0,0], ![1,1,0,0], ![0,1,1,0], ![0,0,0,0]],
    ![![0,0,0,0], ![1,0,0,0], ![1,1,1,0], ![0,0,0,0]],
    ![![0,0,0,0], ![0,0,1,0], ![1,1,1,0], ![0,0,0,0]]]

def CYAN : Int := 1
def YELLOW : Int := 2
def MAGENTA : Int := 3
def GREEN : Int := 4
def RED : Int := 5
def BLUE : Int := 6
def BROWN : Int := 7
def BOUNDARY : Int := 8

/-- The value `getch()` returns when no key is pending. -/
def ERR : Int := -1

def KEY_a : Int := 97
def KEY_d : Int := 100
def KEY_g : Int := 103
def KEY_h : Int := 104
def KEY_p : Int := 112
def KEY_q : Int := 113
def KEY_r : Int := 114
def KEY_s : Int := 115
def KEY_w : Int := 119

/-! ## Tetromino -/

/-- The class `Tetromino`. -/
structure Tetromino where
  shape : Mask
  x : Int
  y : Int
  type : Int
  color : Int
deriving DecidableEq

/-- The spawn column `WIDTH / 2 - BLOCK_SIZE / 2`. -/
def spawnX : Int := (WIDTH : Int) / 2 - (BLOCK_SIZE : Int) / 2

/-- The `switch (type)` of the constructor. -/
def colorOfType (type : Nat) : Int :=
  match type with
  | 0 => CYAN
  | 1 => YELLOW
  | 2 => MAGENTA
  | 3 => GREEN
  | 4 => RED
  | 5 => BLUE
  | 6 => BROWN
  | _ => 0

/-- The constructor `Tetromino()`; `r` is the value returned by `rand()`. -/
def Tetromino.fresh (r : Nat) : Tetromino :=
  { type := ((r % 7 : Nat) : Int)
    shape := SHAPES ⟨r % 7, Nat.mod_lt r (by decide)⟩
    x := spawnX
    y := 0
    color := colorOfType (r % 7) }

/-- The assignment `m[a][b] = v` on a 4x4 array. -/
def setMask (m : Mask) (a b : Fin BLOCK_SIZE) (v : Int) : Mask :=
  Function.update m a (Function.update (m a) b v)

/-- The first loop nest of `Tetromino::rotate`:
`temp[j][BLOCK_SIZE - 1 - i] = shape[i][j]` for `i`, `j` ascending. -/
def rotateTemp (shape : Mask) : Mask :=
  (List.finRange BLOCK_SIZE).foldl
    (fun temp i =>
      (List.finRange BLOCK_SIZE).foldl
        (fun temp j => setMask temp j (Fin.rev i) (shape i j)) temp)
    (fun _ _ => 0)

/-- The method `Tetromino::rotate`: the rotated `temp` is copied back to `shape`. -/
def Tetromino.rotate (t : Tetromino) : Tetromino :=
  { t with shape := rotateTemp t.shape }

/-! ## Game state -/

/-- The data members of `TetrisGame`, and the number of `rand()` draws so far. -/
structure TetrisGame where
  grid : List (List Int)
  colorGrid : List (List Int)
  currentPiece : Tetromino
  nextPieces : List Tetromino
  heldPiece : Option Tetromino
  canHold : Bool
  score : Int
  paused : Bool
  quit : Bool
  randCalls : Nat
deriving DecidableEq

/-- The read `grid[r][c]`; `0` stands for a read outside the vector, which the
guards of `isValidMove` and the loop bounds of `clearLines` exclude on a
`HEIGHT x WIDTH` grid. -/
def cellAt (grid : List (List Int)) (r c : Int) : Int :=
  if 0 ≤ r ∧ 0 ≤ c then (grid.getD r.toNat []).getD c.toNat 0 else 0

/-- The write `grid[r][c] = v`; `none` when the index is outside the vector. -/
def writeCell (grid : List (List Int)) (r c : Int) (v : Int) : Option (List (List Int)) :=
  if 0 ≤ r ∧ r < grid.length ∧ 0 ≤ c ∧ c < (grid.getD r.toNat []).length then
    some (grid.set r.toNat ((grid.getD r.toNat []).set c.toNat v))
  else
    none

/-- The test of `isValidMove` on one grid position:
`gridX < 0 || gridX >= WIDTH || gridY >= HEIGHT || (gridY >= 0 && grid[gridY][gridX])`. -/
def cellBlocked (grid : List (List Int)) (gridX gridY : Int) : Bool :=
  decide (gridX < 0) || decide (gridX ≥ (WIDTH : Int)) || decide (gridY ≥ (HEIGHT : Int)) ||
    (decide (gridY ≥ 0) && decide (cellAt grid gridY gridX ≠ 0))

/-- The method `isValidMove(newX, newY)`. -/
def isValidMove (g : TetrisGame) (newX newY : Int) : Bool :=
  (List.finRange BLOCK_SIZE).all fun i =>
    (List.finRange BLOCK_SIZE).all fun j =>
      if g.currentPiece.shape i j ≠ 0 then
        !cellBlocked g.grid (newX + ((j : Nat) : Int)) (newY + ((i : Nat) : Int))
      else true

/-- The least value of a 32-bit `int`. -/
def INT_MIN : Int := -2147483648

/-- The greatest value of a 32-bit `int`. -/
def INT_MAX : Int := 2147483647

/-- The 32-bit `int` that holds the sum `v` of two `int` values: `v` itself
when it lies in `[INT_MIN, INT_MAX]`, and `v` reduced modulo `2^32` into that
range when the addition overflows. -/
def wrapInt (v : Int) : Int := (v + 2147483648) % 4294967296 - 2147483648

/-- The method `isValidMove(newX, newY)` with the additions `newX + j` and
`newY + i` in 32-bit `int` arithmetic. -/
def isValidMove32 (g : TetrisGame) (newX newY : Int) : Bool :=
  (List.finRange BLOCK_SIZE).all fun i =>
    (List.finRange BLOCK_SIZE).all fun j =>
      if g.currentPiece.shape i j ≠ 0 then
        !cellBlocked g.grid (wrapInt (newX + ((j : Nat) : Int))) (wrapInt (newY + ((i : Nat) : Int)))
      else true

/-- The body of the `while` loop of `calculateHardDropPosition`, started with
`dropDistance`; `none` when `fuel` iterations were not enough. -/
def dropLoop (g : TetrisGame) : Nat → Nat → Option Nat
  | 0, _ => none
  | fuel + 1, dropDistance =>
    if isValidMove g g.currentPiece.x (g.currentPiece.y + (dropDistance : Int) + 1) then
      dropLoop g fuel (dropDistance + 1)
    else
      some dropDistance

/-- The method `calculateHardDropPosition`. -/
def calculateHardDropPosition (fuel : Nat) (g : TetrisGame) : Option Nat :=
  dropLoop g fuel 0

/-- The body of the loops of `mergePiece` for the mask cell `(i, j)`. -/
def mergeCell (g : TetrisGame) (i j : Fin BLOCK_SIZE) : Option TetrisGame :=
  if g.currentPiece.shape i j ≠ 0 then
    match writeCell g.grid (g.currentPiece.y + ((i : Nat) : Int)) (g.currentPiece.x + ((j : Nat) : Int)) 1,
      writeCell g.colorGrid (g.currentPiece.y + ((i : Nat) : Int)) (g.currentPiece.x + ((j : Nat) : Int))
        g.currentPiece.color with
    | some grid, some colorGrid => some { g with grid := grid, colorGrid := colorGrid }
    | _, _ => none
  else
    some g

/-- The method `mergePiece`; `none` when a write falls outside the grid. -/
def mergePiece (g : TetrisGame) : Option TetrisGame :=
  (List.finRange BLOCK_SIZE).foldlM
    (fun g1 i => (List.finRange BLOCK_SIZE).foldlM (fun g2 j => mergeCell g2 i j) g1) g

/-- The inner loop of `clearLines`: row `i` has no zero in columns `0 .. WIDTH-1`. -/
def rowFull (grid : List (List Int)) (i : Nat) : Bool :=
  (List.range WIDTH).all fun j => decide (cellAt grid (i : Int) (j : Int) ≠ 0)

/-- The body of the outer loop of `clearLines` for row `i`. -/
def clearLinesStep (g : TetrisGame) (i : Nat) : TetrisGame :=
  if rowFull g.grid i then
    { g with
      grid := List.replicate WIDTH 0 :: g.grid.eraseIdx i
      colorGrid := List.replicate WIDTH 0 :: g.colorGrid.eraseIdx i
      score := g.score + 100 }
  else g

/-- The method `clearLines`: `i` runs from `HEIGHT - 1` down to `0`. -/
def clearLines (g : TetrisGame) : TetrisGame :=
  (List.range HEIGHT).reverse.foldl clearLinesStep g

/-- The loop of `generateNextPieces` with a bound on its passes. -/
def generateLoop (rand : Nat → Nat) : Nat → TetrisGame → TetrisGame
  | 0, g => g
  | n + 1, g =>
    if g.nextPieces.length < 3 then
      generateLoop rand n
        { g with
          nextPieces := g.nextPieces ++ [Tetromino.fresh (rand g.randCalls)]
          randCalls := g.randCalls + 1 }
    else g

/-- The method `generateNextPieces`.  Every pass of the loop appends a piece, so
the loop makes at most three passes. -/
def generateNextPieces (rand : Nat → Nat) (g : TetrisGame) : TetrisGame :=
  generateLoop rand 3 g

/-- The method `getNewPiece`. -/
def getNewPiece (rand : Nat → Nat) (g : TetrisGame) : TetrisGame :=
  let g1 :=
    match g.nextPieces with
    | [] =>
      generateNextPieces rand
        { g with currentPiece := Tetromino.fresh (rand g.randCalls), randCalls := g.randCalls + 1 }
    | p :: rest =>
      generateNextPieces rand { g with currentPiece := p, nextPieces := rest }
  { g1 with currentPiece := { g1.currentPiece with x := spawnX, y := 0 }, canHold := true }

/-- The method `holdCurrentPiece`. -/
def holdCurrentPiece (rand : Nat → Nat) (g : TetrisGame) : TetrisGame :=
  if !g.canHold then g
  else
    let g1 :=
      match g.heldPiece with
      | none => getNewPiece rand { g with heldPiece := some g.currentPiece }
      | some held =>
        { g with
          currentPiece := { held with x := spawnX, y := 0 }
          heldPiece := some g.currentPiece }
    { g1 with canHold := false }

/-- The hard-drop case of `handleInput`. -/
def hardDrop (rand : Nat → Nat) (fuel : Nat) (g : TetrisGame) : Option TetrisGame :=
  match calculateHardDropPosition fuel g with
  | none => none
  | some dropDistance =>
    match mergePiece
        { g with currentPiece := { g.currentPiece with y := g.currentPiece.y + (dropDistance : Int) } } with
    | none => none
    | some g1 => some (getNewPiece rand (clearLines g1))

/-- The `switch (ch)` of `handleInput`: the state after the case, and `newX`, `newY`. -/
def handleKey (rand : Nat → Nat) (fuel : Nat) (g : TetrisGame) (ch : Int) :
    Option (TetrisGame × Int × Int) :=
  let newX := g.currentPiece.x
  let newY := g.currentPiece.y
  if ch = KEY_a then some (g, newX - 1, newY)
  else if ch = KEY_d then some (g, newX + 1, newY)
  else if ch = KEY_s then some (g, newX, newY + 1)
  else if ch = KEY_w then
    -- `temp` is a rotated copy; `isValidMove` reads `currentPiece`
    let temp := g.currentPiece.rotate
    if isValidMove g temp.x temp.y then
      some ({ g with currentPiece := g.currentPiece.rotate }, newX, newY)
    else some (g, newX, newY)
  else if ch = KEY_h then
    (hardDrop rand fuel g).map fun g1 => (g1, newX, newY)
  else if ch = KEY_p then some ({ g with paused := true }, newX, newY)
  else if ch = KEY_r then some ({ g with paused := false }, newX, newY)
  else if ch = KEY_g then some (holdCurrentPiece rand g, newX, newY)
  else if ch = KEY_q then some ({ g with quit := true }, newX, newY)
  else some (g, newX, newY)

/-- The method `handleInput`; `ch` is the value returned by `getch()`. -/
def handleInput (rand : Nat → Nat) (fuel : Nat) (g : TetrisGame) (ch : Int) : Option TetrisGame :=
  if ch ≠ ERR then
    match handleKey rand fuel g ch with
    | none => none
    | some (g1, newX, newY) =>
      if !g1.paused && decide (ch ≠ KEY_h) && isValidMove g1 newX newY then
        some { g1 with currentPiece := { g1.currentPiece with x := newX, y := newY } }
      else some g1
  else some g

/-- The method `update`: the returned flag and the new state. -/
def update (rand : Nat → Nat) (g : TetrisGame) : Option (Bool × TetrisGame) :=
  if g.quit then some (false, g)
  else if g.paused then some (true, g)
  else if isValidMove g g.currentPiece.x (g.currentPiece.y + 1) then
    some (true, { g with currentPiece := { g.currentPiece with y := g.currentPiece.y + 1 } })
  else
    match mergePiece g with
    | none => none
    | some g1 =>
      let g3 := getNewPiece rand (clearLines g1)
      if !isValidMove g3 g3.currentPiece.x g3.currentPiece.y then some (false, g3)
      else some (true, g3)

/-- The state built by the constructor `TetrisGame()`: the member `currentPiece`
is default-constructed, the grids are `HEIGHT` rows of `WIDTH` zeros, and the
constructor body calls `generateNextPieces`. -/
def TetrisGame.initial (rand : Nat → Nat) : TetrisGame :=
  generateNextPieces rand
    { grid := List.replicate HEIGHT (List.replicate WIDTH 0)
      colorGrid := List.replicate HEIGHT (List.replicate WIDTH 0)
      currentPiece := Tetromino.fresh (rand 0)
      nextPieces := []
      heldPiece := none
      canHold := true
      score := 0
      paused := false
      quit := false
      randCalls := 1 }

/-- One pass of the loop `while (update()) { draw(); handleInput(); }` of `run`
with key `ch`; `none` when `update()` returned `false` (the loop is left) or a
write fell outside the grid. -/
def runPass (rand : Nat → Nat) (fuel : Nat) (g : TetrisGame) (ch : Int) : Option TetrisGame :=
  match update rand g with
  | some (true, g1) => handleInput rand fuel g1 ch
  | _ => none

/-- The state after the passes of the loop of `run` that read the keys `keys`. -/
def runKeys (rand : Nat → Nat) (fuel : Nat) (g : TetrisGame) (keys : List Int) : Option TetrisGame :=
  keys.foldlM (runPass rand fuel) g

/-! ## Predicates used in the statements -/

/-- The grid has `HEIGHT` rows of `WIDTH` cells. -/
def GridOK (grid : List (List Int)) : Prop :=
  grid.length = HEIGHT ∧ ∀ row ∈ grid, row.length = WIDTH

instance (grid : List (List Int)) : Decidable (GridOK grid) := by
  unfold GridOK; infer_instance

/-- Every occupied mask cell of the piece lies inside the grid. -/
def PieceInGrid (p : Tetromino) : Prop :=
  ∀ i j : Fin BLOCK_SIZE, p.shape i j ≠ 0 →
    0 ≤ p.x + ((j : Nat) : Int) ∧ p.x + ((j : Nat) : Int) < (WIDTH : Int) ∧
    0 ≤ p.y + ((i : Nat) : Int) ∧ p.y + ((i : Nat) : Int) < (HEIGHT : Int)

instance (p : Tetromino) : Decidable (PieceInGrid p) := by
  unfold PieceInGrid; infer_instance

/-- `MergedCells done g0 g1`: the state `g1` is `g0` after the occupied mask
cells selected by `done` were written to the grid and the colour grid. -/
def MergedCells (done : Fin BLOCK_SIZE → Fin BLOCK_SIZE → Prop) (g0 g1 : TetrisGame) : Prop :=
  { g1 with grid := g0.grid, colorGrid := g0.colorGrid } = g0 ∧
  GridOK g1.grid ∧ GridOK g1.colorGrid ∧
  ∀ r c : Int,
    ((∃ i j : Fin BLOCK_SIZE, done i j ∧ g0.currentPiece.shape i j ≠ 0 ∧
        r = g0.currentPiece.y + ((i : Nat) : Int) ∧ c = g0.currentPiece.x + ((j : Nat) : Int)) →
      cellAt g1.grid r c = 1 ∧ cellAt g1.colorGrid r c = g0.currentPiece.color) ∧
    ((¬ ∃ i j : Fin BLOCK_SIZE, done i j ∧ g0.currentPiece.shape i j ≠ 0 ∧
        r = g0.currentPiece.y + ((i : Nat) : Int) ∧ c = g0.currentPiece.x + ((j : Nat) : Int)) →
      cellAt g1.grid r c = cellAt g0.grid r c ∧ cellAt g1.colorGrid r c = cellAt g0.colorGrid r c)

/-- The piece viewed as a list of its mask rows, for display in statements. -/
def maskRows (m : Mask) : List (List Int) :=
  (List.finRange BLOCK_SIZE).map fun i => (List.finRange BLOCK_SIZE).map fun j => m i j

/-- The test of the inner loop of `clearLines` on a row taken by itself: no zero
in the columns `0 .. WIDTH-1`. -/
def rowIsFull (row : List Int) : Bool :=
  (List.range WIDTH).all fun j => decide (row.getD j 0 ≠ 0)

/-- The rows whose flag is `true`, in their order. -/
def selectRows {α : Type} : List Bool → List α → List α
  | b :: bs, r :: rs => if b then r :: selectRows bs rs else selectRows bs rs
  | _, _ => []

/-- `Swept rows keep`: the flags `keep` tell which of `rows` (listed from the top)
the descending loop of `clearLines` keeps.  The loop tests the rows from the
bottom; a row that is not full is kept; a full row is removed, and the row
right above it, which moves into the tested index, is kept without a test. -/
inductive Swept : List (List Int) → List Bool → Prop
  | nil : Swept [] []
  | keep (rows : List (List Int)) (flags : List Bool) (a : List Int) :
      Swept rows flags → rowIsFull a = false → Swept (rows ++ [a]) (flags ++ [true])
  | last (a : List Int) : rowIsFull a = true → Swept [a] [false]
  | skip (rows : List (List Int)) (flags : List Bool) (s a : List Int) :
      Swept rows flags → rowIsFull a = true →
      Swept (rows ++ [s, a]) (flags ++ [true, false])

/-! ## Concrete inputs -/

/-- A generator that always returns `k`. -/
def randConst (k : Nat) : Nat → Nat := fun _ => k

/-- A generator that returns 0, 1, 2, ...: the pieces come as I, O, T, S, Z, J, L. -/
def randId : Nat → Nat := fun n => n

/-- Fuel for the hard-drop loop in the concrete runs. -/
def FUEL : Nat := HEIGHT + 1

def emptyRow : List Int := List.replicate WIDTH 0

/-- A row with every cell occupied, coloured `c`. -/
def fullRow (c : Int) : List Int := List.replicate WIDTH c

/-- A row with column 0 empty and every other cell occupied, coloured `c`. -/
def gapRow (c : Int) : List Int := 0 :: List.replicate (WIDTH - 1) c

/-- A board whose last three rows are full, full, gapped; the rows above are empty. -/
def stackedGame : TetrisGame :=
  { TetrisGame.initial randId with
    grid := List.replicate (HEIGHT - 3) emptyRow ++ [fullRow 1, fullRow 1, gapRow 1]
    colorGrid := List.replicate (HEIGHT - 3) emptyRow ++ [fullRow YELLOW, fullRow GREEN, gapRow RED] }

/-- The I piece turned upright (mask column 2) and pushed to the left wall of the
empty board: column `x + 2 = 0`, rows 16..19. -/
def atLeftWall : TetrisGame :=
  { TetrisGame.initial (randConst 0) with
    currentPiece := { (Tetromino.fresh 0).rotate with x := -2, y := 16 } }

/-- The keys of a run that turns the I piece upright, pushes it to the left wall
and turns it again. -/
def wallKeys : List Int := KEY_w :: List.replicate 15 KEY_a ++ [KEY_w]

/-- The paused game: the initial state of a game whose pieces come as I, O, T, ...
after the key `p`. -/
def pausedGame : TetrisGame :=
  { TetrisGame.initial randId with paused := true }

/-- Position and mask rows of the active piece. -/
def pieceView (g : TetrisGame) : Int × Int × List (List Int) :=
  (g.currentPiece.x, g.currentPiece.y, maskRows g.currentPiece.shape)

/-- A generator for the run `overhangKeys`: I, thirteen O, I, I, then J. -/
def randOverhang : Nat → Nat :=
  fun k => if k = 0 then 0 else if k ≤ 13 then 1 else if k ≤ 15 then 0 else 5

/-- Keys of a run that lays an I flat on the floor under columns 14..17, stacks
thirteen O pieces on columns 16 and 17 up to row 3, lets an I piece come to rest
on that stack in row 2 (columns 14..17), and hard-drops the next I piece, which
locks where it spawned. -/
def overhangKeys : List Int :=
  [KEY_d, KEY_h] ++ (List.replicate 12 [KEY_d, KEY_d, KEY_h]).flatten ++
    [KEY_d, KEY_d, KEY_d, ERR, KEY_h]

/-- Keys of a run that hard-drops fourteen pieces straight down. -/
def towerKeys : List Int := List.replicate 14 KEY_h

/-- The state after the first gravity tick of the game whose pieces come as
I, O, T, ... -/
def afterTick : Option TetrisGame :=
  (update randId (TetrisGame.initial randId)).map Prod.snd

/-- The state of the same game after the passes with the keys hold and hard drop
and one more gravity tick. -/
def afterLockTick : Option TetrisGame :=
  ((runKeys randId FUEL (TetrisGame.initial randId) [KEY_g, KEY_h]).bind (update randId)).map
    Prod.snd

/-- The I piece of the initial state lowered to the floor of the empty board
(its cells are in row 29). -/
def restingGame : TetrisGame :=
  { TetrisGame.initial randId with
    currentPiece := { (TetrisGame.initial randId).currentPiece with y := 28 } }

/-- The I piece of the initial state at row 28 (cells in row 29) above a bottom
row that is occupied except in the columns 13..16 under the piece. -/
def completingGame : TetrisGame :=
  { restingGame with
    grid := List.replicate (HEIGHT - 1) emptyRow ++
      [List.replicate 13 1 ++ List.replicate 4 0 ++ List.replicate 13 1]
    colorGrid := List.replicate (HEIGHT - 1) emptyRow ++
      [List.replicate 13 RED ++ List.replicate 4 0 ++ List.replicate 13 RED] }

/-- The state after the run `towerKeys` of the game whose pieces are all O: the
columns 14 and 15 are occupied from row 2 down and the O piece spawned by the
last hard drop overlaps the stack in row 2. -/
def blockedSpawn : TetrisGame :=
  (runKeys (randConst 1) FUEL (TetrisGame.initial (randConst 1)) towerKeys).getD
    (TetrisGame.initial (randConst 1))

/-- A board with the full rows 25, 27 and 29 and the gapped rows 26 and 28. -/
def alternatingGame : TetrisGame :=
  { TetrisGame.initial randId with
    grid := List.replicate (HEIGHT - 5) emptyRow ++
      [fullRow 1, gapRow 1, fullRow 1, gapRow 1, fullRow 1]
    colorGrid := List.replicate (HEIGHT - 5) emptyRow ++
      [fullRow CYAN, gapRow YELLOW, fullRow MAGENTA, gapRow GREEN, fullRow RED] }

/-- Keys that move a piece `n` columns to the left and hard-drop it. -/
def leftDrop (n : Nat) : List Int := List.replicate n KEY_a ++ [KEY_h]

/-- Keys that move a piece `n` columns to the right and hard-drop it. -/
def rightDrop (n : Nat) : List Int := List.replicate n KEY_d ++ [KEY_h]

/-- Keys of a run that lays fifteen O pieces side by side on the floor: columns
14-15, 12-13, ..., 0-1, then 16-17, ..., 28-29. -/
def floorKeys : List Int :=
  ((List.range 8).map fun k => leftDrop (2 * k)).flatten ++
  ((List.range 7).map fun k => rightDrop (2 * (k + 1))).flatten

/-- The game of O pieces with fourteen of them laid side by side in rows 28 and
29 (columns 0..27) and the fifteenth at x = 27 (columns 28, 29), y = 14. -/
def floorState : TetrisGame :=
  { TetrisGame.initial (randConst 1) with
    grid := List.replicate (HEIGHT - 2) emptyRow ++
      [List.replicate 28 1 ++ [0, 0], List.replicate 28 1 ++ [0, 0]]
    colorGrid := List.replicate (HEIGHT - 2) emptyRow ++
      [List.replicate 28 YELLOW ++ [0, 0], List.replicate 28 YELLOW ++ [0, 0]]
    currentPiece := { Tetromino.fresh 1 with x := 27, y := 14 }
    randCalls := 18 }

/-! ## Evaluations of the program at concrete inputs -/

set_option maxRecDepth 1000000 in
/-- C1 (the code at a failing input): on the board whose last three rows are
full, full, gapped, `clearLines` removes only the lower full row (row 28): the
upper full row, skipped by the descending loop after the rows above shifted
down, stays on the board above the gapped row, one empty row is added and the
score grows by 100 instead of 200. -/
theorem clearLines_keeps_adjacent_full_row :
    GridOK stackedGame.grid ∧
    rowFull stackedGame.grid 27 = true ∧ rowFull stackedGame.grid 28 = true ∧
    rowFull stackedGame.grid 29 = false ∧
    (clearLines stackedGame).grid =
      List.replicate 28 emptyRow ++ [fullRow 1, gapRow 1] ∧
    (clearLines stackedGame).colorGrid =
      List.replicate 28 emptyRow ++ [fullRow YELLOW, gapRow RED] ∧
    rowFull (clearLines stackedGame).grid 28 = true ∧
    (clearLines stackedGame).grid ≠ List.replicate 29 emptyRow ++ [gapRow 1] ∧
    (clearLines stackedGame).score = stackedGame.score + 100 := by
  refine ⟨⟨by decide, by decide⟩, ?_, ?_, ?_, ?_, ?_, ?_, ?_, ?_⟩ <;> decide

set_option maxRecDepth 1000000 in
/-- C2 (the code at a failing input): the upright I piece stands in column 0 of
the empty board, the state `atLeftWall` that the run of the game loop with the
keys rotate and fifteen times left reaches from the initial state.  Its
clockwise-rotated mask has the occupied cell (2,0) in column `x + 0 = -2`, so
the rotated mask is not a valid placement at the current position; the rotate
command replaces the mask by the rotated mask all the same. -/
theorem rotate_command_ignores_rotated_mask :
    runKeys (randConst 0) FUEL (TetrisGame.initial (randConst 0)) (wallKeys.take 16)
      = some atLeftWall ∧
    atLeftWall.paused = false ∧ atLeftWall.quit = false ∧
    pieceView atLeftWall = (-2, 16, [[0,0,1,0],[0,0,1,0],[0,0,1,0],[0,0,1,0]]) ∧
    maskRows atLeftWall.currentPiece.rotate.shape = [[0,0,0,0],[0,0,0,0],[1,1,1,1],[0,0,0,0]] ∧
    atLeftWall.currentPiece.rotate.shape 2 0 ≠ 0 ∧
    atLeftWall.currentPiece.x + ((0 : Nat) : Int) < 0 ∧
    isValidMove { atLeftWall with currentPiece := atLeftWall.currentPiece.rotate }
      atLeftWall.currentPiece.x atLeftWall.currentPiece.y = false ∧
    (handleInput (randConst 0) FUEL atLeftWall KEY_w).map pieceView
      = some (-2, 16, [[0,0,0,0],[0,0,0,0],[1,1,1,1],[0,0,0,0]]) := by
  refine ⟨?_, ?_, ?_, ?_, ?_, ?_, ?_, ?_, ?_⟩ <;> decide

set_option maxRecDepth 1000000 in
/-- C3 (the code at a failing input): the run of the game loop from the initial
state with the keys `wallKeys` (rotate, fifteen times left, rotate) leaves the I
piece lying in row `y + 2 = 19` with its occupied cells (2,0) and (2,1) in
columns -2 and -1; the next `update` cannot move it down and `mergePiece`
writes outside the grid. -/
theorem run_puts_piece_outside_grid :
    (runKeys (randConst 0) FUEL (TetrisGame.initial (randConst 0)) wallKeys).map pieceView
      = some (-2, 17, [[0,0,0,0],[0,0,0,0],[1,1,1,1],[0,0,0,0]]) ∧
    (runKeys (randConst 0) FUEL (TetrisGame.initial (randConst 0)) wallKeys).map
        (fun g => decide (GridOK g.grid)) = some true ∧
    (runKeys (randConst 0) FUEL (TetrisGame.initial (randConst 0)) wallKeys).map
        (fun g => isValidMove g g.currentPiece.x (g.currentPiece.y + 1)) = some false ∧
    (runKeys (randConst 0) FUEL (TetrisGame.initial (randConst 0)) wallKeys).map mergePiece
      = some none ∧
    (runKeys (randConst 0) FUEL (TetrisGame.initial (randConst 0)) wallKeys).map
        (update (randConst 0)) = some none := by
  refine ⟨?_, ?_, ?_, ?_, ?_⟩ <;> decide

set_option maxRecDepth 1000000 in
/-- C5 (the code at a failing input): in the paused game reached from the initial
state by the key `p`, the rotate command replaces the mask of the active piece,
the hard-drop command merges the piece into the bottom of the grid and the
colour grid and takes the next piece from the queue, and the hold command fills
the hold slot, clears `canHold` and takes the next piece from the queue. -/
theorem paused_commands_change_state :
    (handleInput randId FUEL (TetrisGame.initial randId) KEY_p).map
        (fun g => decide (g = pausedGame)) = some true ∧
    pausedGame.paused = true ∧
    pieceView pausedGame = (13, 0, [[0,0,0,0],[1,1,1,1],[0,0,0,0],[0,0,0,0]]) ∧
    (cellAt pausedGame.grid 29 13, cellAt pausedGame.colorGrid 29 13) = (0, 0) ∧
    pausedGame.nextPieces.map (fun p => p.type) = [1, 2, 3] ∧
    (pausedGame.heldPiece.map (fun p => p.type), pausedGame.canHold) = (none, true) ∧
    (handleInput randId FUEL pausedGame KEY_w).map pieceView
      = some (13, 0, [[0,0,1,0],[0,0,1,0],[0,0,1,0],[0,0,1,0]]) ∧
    (handleInput randId FUEL pausedGame KEY_h).map
        (fun g => (cellAt g.grid 29 13, cellAt g.colorGrid 29 13)) = some (1, CYAN) ∧
    (handleInput randId FUEL pausedGame KEY_h).map pieceView
      = some (13, 0, [[0,0,0,0],[0,1,1,0],[0,1,1,0],[0,0,0,0]]) ∧
    (handleInput randId FUEL pausedGame KEY_h).map (fun g => g.nextPieces.map (fun p => p.type))
      = some [2, 3, 4] ∧
    (handleInput randId FUEL pausedGame KEY_g).map
        (fun g => (g.heldPiece.map (fun p => p.type), g.canHold)) = some (some 0, false) ∧
    (handleInput randId FUEL pausedGame KEY_g).map pieceView
      = some (13, 0, [[0,0,0,0],[0,1,1,0],[0,1,1,0],[0,0,0,0]]) ∧
    (handleInput randId FUEL pausedGame KEY_g).map (fun g => g.nextPieces.map (fun p => p.type))
      = some [2, 3, 4] := by
  refine ⟨?_, ?_, ?_, ?_, ?_, ?_, ?_, ?_, ?_, ?_, ?_, ?_, ?_⟩ <;> decide

set_option maxRecDepth 1000000 in
/-- C6 (the code at a failing input): after the first gravity tick the I piece is
at (13, 1), the game is running, `canHold` is true and the hold slot is empty.
The hold command stores the I piece and leaves the new active piece, the O piece
from the queue, at (13, 1), not at the spawn row 0.  After that piece was locked
and one more tick has passed, `canHold` is true again and the slot holds the I
piece; the hold command swaps it in and leaves it at (13, 1). -/
theorem hold_command_keeps_old_position :
    afterTick.map pieceView = some (13, 1, [[0,0,0,0],[1,1,1,1],[0,0,0,0],[0,0,0,0]]) ∧
    afterTick.map (fun g => (g.canHold, g.paused, g.heldPiece.isNone))
      = some (true, false, true) ∧
    (afterTick.bind (fun g => handleInput randId FUEL g KEY_g)).map pieceView
      = some (13, 1, [[0,0,0,0],[0,1,1,0],[0,1,1,0],[0,0,0,0]]) ∧
    (afterTick.bind (fun g => handleInput randId FUEL g KEY_g)).map
        (fun g => g.heldPiece.map (fun p => p.type)) = some (some 0) ∧
    afterLockTick.map pieceView = some (13, 1, [[0,0,0,0],[0,1,0,0],[1,1,1,0],[0,0,0,0]]) ∧
    afterLockTick.map (fun g => (g.canHold, g.paused, g.heldPiece.map (fun p => p.type)))
      = some (true, false, some 0) ∧
    (afterLockTick.bind (fun g => handleInput randId FUEL g KEY_g)).map pieceView
      = some (13, 1, [[0,0,0,0],[1,1,1,1],[0,0,0,0],[0,0,0,0]]) ∧
    (afterLockTick.bind (fun g => handleInput randId FUEL g KEY_g)).map
        (fun g => g.heldPiece.map (fun p => p.type)) = some (some 2) := by
  refine ⟨?_, ?_, ?_, ?_, ?_, ?_, ?_, ?_⟩ <;> decide

set_option maxRecDepth 1000000 in
/-- C8 (the code at failing inputs): two runs of the game loop from the initial
state that end with a hard drop whose lock sequence spawns a piece overlapping
the board.  In the first (fourteen O pieces dropped straight down) the next
`update` merges the overlapping O piece into rows 1 and 2 of the board, writing
the empty cell (1,14), before it returns `false`.  In the second the spawned J
piece overlaps the board in the cells (1,13), (2,14) and (2,15), but fits one
row lower, and the next `update` moves it down one row and returns `true`: the
game goes on. -/
theorem hard_drop_spawn_not_checked :
    (runKeys (randConst 1) FUEL (TetrisGame.initial (randConst 1)) towerKeys).map
        (fun g => (pieceView g, isValidMove g g.currentPiece.x g.currentPiece.y,
          cellAt g.grid 1 14, cellAt g.grid 2 14))
      = some ((13, 0, [[0,0,0,0],[0,1,1,0],[0,1,1,0],[0,0,0,0]]), false, 0, 1) ∧
    ((runKeys (randConst 1) FUEL (TetrisGame.initial (randConst 1)) towerKeys).bind
        (update (randConst 1))).map (fun r => (r.1, cellAt r.2.grid 1 14, cellAt r.2.colorGrid 1 14))
      = some (false, 1, YELLOW) ∧
    (runKeys randOverhang FUEL (TetrisGame.initial randOverhang) overhangKeys).map
        (fun g => (pieceView g, isValidMove g g.currentPiece.x g.currentPiece.y,
          cellAt g.grid 1 13))
      = some ((13, 0, [[0,0,0,0],[1,0,0,0],[1,1,1,0],[0,0,0,0]]), false, 1) ∧
    ((runKeys randOverhang FUEL (TetrisGame.initial randOverhang) overhangKeys).bind
        (update randOverhang)).map (fun r => (r.1, pieceView r.2))
      = some (true, (13, 1, [[0,0,0,0],[1,0,0,0],[1,1,1,0],[0,0,0,0]])) := by
  refine ⟨?_, ?_, ?_, ?_⟩ <;> decide

/-! ## Validity of a placement -/

theorem cellBlocked_eq_true_iff (grid : List (List Int)) (gx gy : Int) :
    cellBlocked grid gx gy = true ↔
      (gx < 0 ∨ gx ≥ (WIDTH : Int) ∨ gy ≥ (HEIGHT : Int) ∨ (gy ≥ 0 ∧ cellAt grid gy gx ≠ 0)) := by
  simp [cellBlocked, or_assoc]

theorem isValidMove_eq_true_iff (g : TetrisGame) (newX newY : Int) :
    isValidMove g newX newY = true ↔
      ∀ i j : Fin BLOCK_SIZE, g.currentPiece.shape i j ≠ 0 →
        cellBlocked g.grid (newX + ((j : Nat) : Int)) (newY + ((i : Nat) : Int)) = false := by
  simp [isValidMove, List.all_eq_true, or_iff_not_imp_left]

theorem spawnX_eq : spawnX = 13 := by decide

theorem isValidMove_eq_false_iff (g : TetrisGame) (newX newY : Int) :
    isValidMove g newX newY = false ↔
      ∃ i j : Fin BLOCK_SIZE, g.currentPiece.shape i j ≠ 0 ∧
        cellBlocked g.grid (newX + ((j : Nat) : Int)) (newY + ((i : Nat) : Int)) = true := by
  rw [← Bool.not_eq_true, isValidMove_eq_true_iff]
  push_neg
  simp

/-- The test on unbounded integers: `isValidMove g newX newY` is false exactly
when some occupied mask cell (i,j) has `newX + j < 0`, `newX + j >= WIDTH`,
`newY + i >= HEIGHT`, or `newY + i >= 0` with the board cell at row `newY + i`,
column `newX + j` occupied; with the consequences for cells above the grid and
for the seven shapes in any rotation. -/
theorem isValidMove_rejects_exactly (g : TetrisGame) (newX newY : Int) :
    (isValidMove g newX newY = false ↔
      ∃ i j : Fin BLOCK_SIZE, g.currentPiece.shape i j ≠ 0 ∧
        (newX + ((j : Nat) : Int) < 0 ∨ newX + ((j : Nat) : Int) ≥ (WIDTH : Int) ∨
          newY + ((i : Nat) : Int) ≥ (HEIGHT : Int) ∨
          (newY + ((i : Nat) : Int) ≥ 0 ∧
            cellAt g.grid (newY + ((i : Nat) : Int)) (newX + ((j : Nat) : Int)) ≠ 0))) ∧
    ((∀ i j : Fin BLOCK_SIZE, g.currentPiece.shape i j ≠ 0 → newY + ((i : Nat) : Int) < 0) →
      (isValidMove g newX newY = true ↔
        ∀ i j : Fin BLOCK_SIZE, g.currentPiece.shape i j ≠ 0 →
          0 ≤ newX + ((j : Nat) : Int) ∧ newX + ((j : Nat) : Int) < (WIDTH : Int))) ∧
    (∀ (t : Fin 7) (k : Nat), g.currentPiece.shape = rotateTemp^[k] (SHAPES t) →
      ∀ i j : Fin BLOCK_SIZE, g.currentPiece.shape i j ≠ 0 →
        (newX + ((j : Nat) : Int) < 0 ∨ newX + ((j : Nat) : Int) ≥ (WIDTH : Int) ∨
          newY + ((i : Nat) : Int) ≥ (HEIGHT : Int)) →
        isValidMove g newX newY = false) := by
  have key : isValidMove g newX newY = false ↔
      ∃ i j : Fin BLOCK_SIZE, g.currentPiece.shape i j ≠ 0 ∧
        (newX + ((j : Nat) : Int) < 0 ∨ newX + ((j : Nat) : Int) ≥ (WIDTH : Int) ∨
          newY + ((i : Nat) : Int) ≥ (HEIGHT : Int) ∨
          (newY + ((i : Nat) : Int) ≥ 0 ∧
            cellAt g.grid (newY + ((i : Nat) : Int)) (newX + ((j : Nat) : Int)) ≠ 0)) := by
    rw [isValidMove_eq_false_iff]
    constructor
    · rintro ⟨i, j, hs, hb⟩
      exact ⟨i, j, hs, (cellBlocked_eq_true_iff _ _ _).1 hb⟩
    · rintro ⟨i, j, hs, hb⟩
      exact ⟨i, j, hs, (cellBlocked_eq_true_iff _ _ _).2 hb⟩
  refine ⟨key, ?_, ?_⟩
  · intro habove
    rw [← Bool.not_eq_false, key]
    constructor
    · intro h i j hs
      by_contra hc
      apply h
      refine ⟨i, j, hs, ?_⟩
      by_cases h0 : newX + ((j : Nat) : Int) < 0
      · exact Or.inl h0
      · right; left
        push_neg at h0
        by_contra h1
        exact hc ⟨h0, not_le.1 h1⟩
    · rintro h ⟨i, j, hs, hb⟩
      have h1 := h i j hs
      have h2 := habove i j hs
      rcases hb with hb | hb | hb | hb
      · omega
      · omega
      · omega
      · omega
  · intro t k _ i j hs hb
    rw [key]
    refine ⟨i, j, hs, ?_⟩
    rcases hb with hb | hb | hb
    · exact Or.inl hb
    · exact Or.inr (Or.inl hb)
    · exact Or.inr (Or.inr (Or.inl hb))

theorem wrapInt_of_range (v : Int) (h1 : INT_MIN ≤ v) (h2 : v ≤ INT_MAX) : wrapInt v = v := by
  unfold wrapInt
  unfold INT_MIN at h1
  unfold INT_MAX at h2
  omega

theorem isValidMove32_eq_true_iff (g : TetrisGame) (newX newY : Int) :
    isValidMove32 g newX newY = true ↔
      ∀ i j : Fin BLOCK_SIZE, g.currentPiece.shape i j ≠ 0 →
        cellBlocked g.grid (wrapInt (newX + ((j : Nat) : Int)))
          (wrapInt (newY + ((i : Nat) : Int))) = false := by
  simp [isValidMove32, List.all_eq_true, or_iff_not_imp_left]

/-- When no addition for an occupied mask cell overflows, the 32-bit test is the
test on unbounded integers. -/
theorem isValidMove32_eq (g : TetrisGame) (newX newY : Int)
    (hX : INT_MIN ≤ newX) (hY : INT_MIN ≤ newY)
    (hov : ∀ i j : Fin BLOCK_SIZE, g.currentPiece.shape i j ≠ 0 →
      newX + ((j : Nat) : Int) ≤ INT_MAX ∧ newY + ((i : Nat) : Int) ≤ INT_MAX) :
    isValidMove32 g newX newY = isValidMove g newX newY := by
  rw [Bool.eq_iff_iff, isValidMove32_eq_true_iff, isValidMove_eq_true_iff]
  constructor
  · intro h i j hs
    have h1 := h i j hs
    rw [wrapInt_of_range _ (by omega) (hov i j hs).1,
      wrapInt_of_range _ (by omega) (hov i j hs).2] at h1
    exact h1
  · intro h i j hs
    rw [wrapInt_of_range _ (by omega) (hov i j hs).1,
      wrapInt_of_range _ (by omega) (hov i j hs).2]
    exact h i j hs

/-- C4 (amended): for every board, every 4x4 mask and all 32-bit integers `newX`,
`newY` for which no sum `newX + j`, `newY + i` of an occupied mask cell (i,j)
exceeds `INT_MAX`, `isValidMove(newX, newY)`, computed in 32-bit arithmetic,
returns false exactly when some occupied mask cell (i,j) has `newX + j < 0`,
`newX + j >= WIDTH`, `newY + i >= HEIGHT`, or `newY + i >= 0` with the board cell
at row `newY + i`, column `newX + j` occupied; the result is the one of the test
on unbounded integers.  When every occupied cell lies above the grid, the result
depends on the horizontal bounds only.  In particular every such placement of
one of the seven shapes, rotated any number of times, with an occupied cell in a
column outside `[0, WIDTH)` or in a row `>= HEIGHT` is rejected. -/
theorem isValidMove32_rejects_exactly (g : TetrisGame) (newX newY : Int)
    (hX : INT_MIN ≤ newX) (hY : INT_MIN ≤ newY)
    (hov : ∀ i j : Fin BLOCK_SIZE, g.currentPiece.shape i j ≠ 0 →
      newX + ((j : Nat) : Int) ≤ INT_MAX ∧ newY + ((i : Nat) : Int) ≤ INT_MAX) :
    (isValidMove32 g newX newY = false ↔
      ∃ i j : Fin BLOCK_SIZE, g.currentPiece.shape i j ≠ 0 ∧
        (newX + ((j : Nat) : Int) < 0 ∨ newX + ((j : Nat) : Int) ≥ (WIDTH : Int) ∨
          newY + ((i : Nat) : Int) ≥ (HEIGHT : Int) ∨
          (newY + ((i : Nat) : Int) ≥ 0 ∧
            cellAt g.grid (newY + ((i : Nat) : Int)) (newX + ((j : Nat) : Int)) ≠ 0))) ∧
    isValidMove32 g newX newY = isValidMove g newX newY ∧
    ((∀ i j : Fin BLOCK_SIZE, g.currentPiece.shape i j ≠ 0 → newY + ((i : Nat) : Int) < 0) →
      (isValidMove32 g newX newY = true ↔
        ∀ i j : Fin BLOCK_SIZE, g.currentPiece.shape i j ≠ 0 →
          0 ≤ newX + ((j : Nat) : Int) ∧ newX + ((j : Nat) : Int) < (WIDTH : Int))) ∧
    (∀ (t : Fin 7) (k : Nat), g.currentPiece.shape = rotateTemp^[k] (SHAPES t) →
      ∀ i j : Fin BLOCK_SIZE, g.currentPiece.shape i j ≠ 0 →
        (newX + ((j : Nat) : Int) < 0 ∨ newX + ((j : Nat) : Int) ≥ (WIDTH : Int) ∨
          newY + ((i : Nat) : Int) ≥ (HEIGHT : Int)) →
        isValidMove32 g newX newY = false) := by
  have e := isValidMove32_eq g newX newY hX hY hov
  have h := isValidMove_rejects_exactly g newX newY
  rw [e]
  exact ⟨h.1, rfl, h.2.1, h.2.2⟩

set_option maxRecDepth 100000 in
/-- Witness for `isValidMove32_rejects_exactly`: the I piece entirely above the
grid is accepted, and the I piece with a cell in column 31 is rejected. -/
theorem isValidMove32_rejects_exactly_witness :
    isValidMove32 { TetrisGame.initial (randConst 0) with
        currentPiece := { Tetromino.fresh 0 with y := -4 } } 13 (-4) = true ∧
    isValidMove32 (TetrisGame.initial (randConst 0)) 28 0 = false :=
  ⟨((isValidMove32_rejects_exactly _ 13 (-4) (by decide) (by decide) (by decide)).2.2.1
      (by decide)).2 (by decide),
   (isValidMove32_rejects_exactly (TetrisGame.initial (randConst 0)) 28 0 (by decide) (by decide)
      (by decide)).2.2.2 0 0 (by decide) 1 3 (by decide) (by decide)⟩

set_option maxRecDepth 100000 in
/-- C4 (counterexample): the flat I piece of the initial state, tested at
`newX = 13`, `newY = INT_MAX = 2147483647`.  The occupied mask cell (1,0) has
`newY + 1 >= HEIGHT`, so the stated condition holds; in 32-bit arithmetic the
sum `newY + 1` overflows to `INT_MIN`, a negative row that is tested against the
horizontal bounds only, and `isValidMove` returns true. -/
theorem isValidMove32_accepts_overflowed_row :
    maskRows (TetrisGame.initial (randConst 0)).currentPiece.shape
      = [[0,0,0,0],[1,1,1,1],[0,0,0,0],[0,0,0,0]] ∧
    wrapInt (2147483647 + ((1 : Nat) : Int)) = INT_MIN ∧
    isValidMove32 (TetrisGame.initial (randConst 0)) 13 2147483647 = true ∧
    ¬ (isValidMove32 (TetrisGame.initial (randConst 0)) 13 2147483647 = false ↔
      ∃ i j : Fin BLOCK_SIZE, (TetrisGame.initial (randConst 0)).currentPiece.shape i j ≠ 0 ∧
        ((13 : Int) + ((j : Nat) : Int) < 0 ∨ (13 : Int) + ((j : Nat) : Int) ≥ (WIDTH : Int) ∨
          (2147483647 : Int) + ((i : Nat) : Int) ≥ (HEIGHT : Int) ∨
          ((2147483647 : Int) + ((i : Nat) : Int) ≥ 0 ∧
            cellAt (TetrisGame.initial (randConst 0)).grid ((2147483647 : Int) + ((i : Nat) : Int))
              ((13 : Int) + ((j : Nat) : Int)) ≠ 0))) := by
  refine ⟨by decide, by decide, by decide, ?_⟩
  intro h
  have hv : isValidMove32 (TetrisGame.initial (randConst 0)) 13 2147483647 = true := by decide
  have hf := h.2 ⟨1, 0, by decide, Or.inr (Or.inr (Or.inl (by decide)))⟩
  rw [hv] at hf
  exact Bool.noConfusion hf

/-! ## Lock sequence and hold -/

/-- The lock branch of `update`: the state is the one after `mergePiece`,
`clearLines`, `getNewPiece`, and the flag tells whether the new piece fits. -/
theorem update_lock (rand : Nat → Nat) (g : TetrisGame) (hq : g.quit = false)
    (hp : g.paused = false)
    (hv : isValidMove g g.currentPiece.x (g.currentPiece.y + 1) = false) :
    update rand g = (mergePiece g).map fun g1 =>
      (isValidMove (getNewPiece rand (clearLines g1))
          (getNewPiece rand (clearLines g1)).currentPiece.x
          (getNewPiece rand (clearLines g1)).currentPiece.y,
        getNewPiece rand (clearLines g1)) := by
  unfold update
  simp only [hq, hp, hv]
  cases hm : mergePiece g with
  | none => simp
  | some g2 =>
    cases hb : isValidMove (getNewPiece rand (clearLines g2))
        (getNewPiece rand (clearLines g2)).currentPiece.x
        (getNewPiece rand (clearLines g2)).currentPiece.y <;> simp [hb]

/-- The hard drop: the piece is moved down by the computed distance and the lock
sequence runs on the moved piece. -/
theorem hardDrop_eq (rand : Nat → Nat) (fuel : Nat) (g : TetrisGame) :
    hardDrop rand fuel g = (calculateHardDropPosition fuel g).bind fun d =>
      (mergePiece { g with currentPiece :=
          { g.currentPiece with y := g.currentPiece.y + (d : Int) } }).map
        fun g1 => getNewPiece rand (clearLines g1) := by
  unfold hardDrop
  cases calculateHardDropPosition fuel g with
  | none => rfl
  | some d =>
    simp only [Option.some_bind]
    cases mergePiece { g with currentPiece :=
          { g.currentPiece with y := g.currentPiece.y + (d : Int) } } <;> rfl

theorem getD_set_row {α : Type} (l : List α) (n m : Nat) (a d : α) (hn : n < l.length) :
    (l.set n a).getD m d = if m = n then a else l.getD m d := by
  simp only [List.getD_eq_getElem?_getD, List.getElem?_set]
  by_cases h : n = m
  · subst h; simp [hn]
  · have h2 : ¬ m = n := fun e => h e.symm
    simp [h, h2]

theorem GridOK_row (grid : List (List Int)) (hg : GridOK grid) (n : Nat) (hn : n < HEIGHT) :
    (grid.getD n []).length = WIDTH := by
  have hlen : n < grid.length := by rw [hg.1]; exact hn
  have : grid.getD n [] = grid[n] := by
    simp [List.getD_eq_getElem?_getD, List.getElem?_eq_getElem hlen]
  rw [this]
  exact hg.2 _ (List.getElem_mem hlen)

theorem writeCell_spec (grid : List (List Int)) (r c v : Int) (hg : GridOK grid)
    (hr : 0 ≤ r) (hr2 : r < (HEIGHT : Int)) (hc : 0 ≤ c) (hc2 : c < (WIDTH : Int)) :
    ∃ grid2, writeCell grid r c v = some grid2 ∧ GridOK grid2 ∧
      ∀ r2 c2 : Int, cellAt grid2 r2 c2 = if r2 = r ∧ c2 = c then v else cellAt grid r2 c2 := by
  have hrn : r.toNat < HEIGHT := by omega
  have hcn : c.toNat < WIDTH := by omega
  have hrow := GridOK_row grid hg r.toNat hrn
  have hlen : r.toNat < grid.length := by rw [hg.1]; exact hrn
  refine ⟨grid.set r.toNat ((grid.getD r.toNat []).set c.toNat v), ?_, ?_, ?_⟩
  · unfold writeCell
    rw [if_pos]
    refine ⟨hr, ?_, hc, ?_⟩
    · rw [hg.1]; exact hr2
    · rw [hrow]; exact hc2
  · refine ⟨by rw [List.length_set]; exact hg.1, ?_⟩
    intro row hrow2
    rcases List.mem_or_eq_of_mem_set hrow2 with h | h
    · exact hg.2 _ h
    · rw [h, List.length_set]; exact hrow
  · intro r2 c2
    unfold cellAt
    by_cases h0 : 0 ≤ r2 ∧ 0 ≤ c2
    · rw [if_pos h0, if_pos h0, getD_set_row _ _ _ _ _ hlen]
      by_cases h1 : r2.toNat = r.toNat
      · have hr2eq : r2 = r := by omega
        rw [if_pos h1, getD_set_row _ _ _ _ _ (by rw [hrow]; exact hcn)]
        by_cases h2 : c2.toNat = c.toNat
        · have : c2 = c := by omega
          rw [if_pos h2, if_pos ⟨hr2eq, this⟩]
        · have : ¬ c2 = c := fun e => h2 (by rw [e])
          rw [if_neg h2, if_neg (fun e => this e.2), hr2eq]
      · have : ¬ r2 = r := fun e => h1 (by rw [e])
        rw [if_neg h1, if_neg (fun e => this e.1)]
    · rw [if_neg h0, if_neg h0]
      have : ¬ (r2 = r ∧ c2 = c) := fun e => h0 ⟨by rw [e.1]; exact hr, by rw [e.2]; exact hc⟩
      rw [if_neg this]


theorem MergedCells_congr {done1 done2 : Fin BLOCK_SIZE → Fin BLOCK_SIZE → Prop}
    {g0 g1 : TetrisGame} (h : ∀ a b, done1 a b ↔ done2 a b) (hm : MergedCells done1 g0 g1) :
    MergedCells done2 g0 g1 := by
  have e : done1 = done2 := funext fun a => funext fun b => propext (h a b)
  rw [← e]; exact hm

theorem MergedCells_piece {done : Fin BLOCK_SIZE → Fin BLOCK_SIZE → Prop} {g0 g1 : TetrisGame}
    (hm : MergedCells done g0 g1) : g1.currentPiece = g0.currentPiece := by
  have h := congrArg TetrisGame.currentPiece hm.1
  exact h

theorem mergeCell_step (done : Fin BLOCK_SIZE → Fin BLOCK_SIZE → Prop) (g0 g1 : TetrisGame)
    (hin : PieceInGrid g0.currentPiece) (hm : MergedCells done g0 g1) (i j : Fin BLOCK_SIZE) :
    ∃ g2, mergeCell g1 i j = some g2 ∧
      MergedCells (fun a b => done a b ∨ (a = i ∧ b = j)) g0 g2 := by
  have hp := MergedCells_piece hm
  obtain ⟨hrest, hg, hcg, hcells⟩ := hm
  by_cases hs : g0.currentPiece.shape i j = 0
  · refine ⟨g1, ?_, hrest, hg, hcg, ?_⟩
    · unfold mergeCell
      rw [hp, if_neg (not_not.2 hs)]
    · intro r c
      have hiff : (∃ a b : Fin BLOCK_SIZE, (done a b ∨ (a = i ∧ b = j)) ∧
            g0.currentPiece.shape a b ≠ 0 ∧
            r = g0.currentPiece.y + ((a : Nat) : Int) ∧ c = g0.currentPiece.x + ((b : Nat) : Int)) ↔
          (∃ a b : Fin BLOCK_SIZE, done a b ∧ g0.currentPiece.shape a b ≠ 0 ∧
            r = g0.currentPiece.y + ((a : Nat) : Int) ∧ c = g0.currentPiece.x + ((b : Nat) : Int)) := by
        constructor
        · rintro ⟨a, b, hd | ⟨ha, hb⟩, hab, hr, hc⟩
          · exact ⟨a, b, hd, hab, hr, hc⟩
          · subst ha; subst hb; exact absurd hs hab
        · rintro ⟨a, b, hd, hab, hr, hc⟩
          exact ⟨a, b, Or.inl hd, hab, hr, hc⟩
      rw [hiff]
      exact hcells r c
  · obtain ⟨hx0, hx1, hy0, hy1⟩ := hin i j hs
    obtain ⟨grid2, hw1, hg2, hc1⟩ := writeCell_spec g1.grid
      (g0.currentPiece.y + ((i : Nat) : Int)) (g0.currentPiece.x + ((j : Nat) : Int)) 1 hg hy0 hy1 hx0 hx1
    obtain ⟨col2, hw2, hcg2, hc2⟩ := writeCell_spec g1.colorGrid
      (g0.currentPiece.y + ((i : Nat) : Int)) (g0.currentPiece.x + ((j : Nat) : Int))
      g0.currentPiece.color hcg hy0 hy1 hx0 hx1
    refine ⟨{ g1 with grid := grid2, colorGrid := col2 }, ?_, hrest, hg2, hcg2, ?_⟩
    · unfold mergeCell
      rw [hp, if_pos hs, hw1, hw2]
    · intro r c
      by_cases hrc : r = g0.currentPiece.y + ((i : Nat) : Int) ∧
          c = g0.currentPiece.x + ((j : Nat) : Int)
      · constructor
        · intro _
          show cellAt grid2 r c = 1 ∧ cellAt col2 r c = g0.currentPiece.color
          rw [hc1, hc2, if_pos hrc, if_pos hrc]
          exact ⟨rfl, rfl⟩
        · intro hn
          exact absurd ⟨i, j, Or.inr ⟨rfl, rfl⟩, hs, hrc.1, hrc.2⟩ hn
      · have hiff : (∃ a b : Fin BLOCK_SIZE, (done a b ∨ (a = i ∧ b = j)) ∧
              g0.currentPiece.shape a b ≠ 0 ∧
              r = g0.currentPiece.y + ((a : Nat) : Int) ∧ c = g0.currentPiece.x + ((b : Nat) : Int)) ↔
            (∃ a b : Fin BLOCK_SIZE, done a b ∧ g0.currentPiece.shape a b ≠ 0 ∧
              r = g0.currentPiece.y + ((a : Nat) : Int) ∧ c = g0.currentPiece.x + ((b : Nat) : Int)) := by
          constructor
          · rintro ⟨a, b, hd | ⟨ha, hb⟩, hab, hr, hc⟩
            · exact ⟨a, b, hd, hab, hr, hc⟩
            · subst ha; subst hb; exact absurd ⟨hr, hc⟩ hrc
          · rintro ⟨a, b, hd, hab, hr, hc⟩
            exact ⟨a, b, Or.inl hd, hab, hr, hc⟩
        rw [hiff]
        show (_ → cellAt grid2 r c = 1 ∧ cellAt col2 r c = g0.currentPiece.color) ∧
          (_ → cellAt grid2 r c = cellAt g0.grid r c ∧ cellAt col2 r c = cellAt g0.colorGrid r c)
        rw [hc1, hc2, if_neg hrc, if_neg hrc]
        exact hcells r c

theorem mergeRow_spec (g0 : TetrisGame) (hin : PieceInGrid g0.currentPiece) (i : Fin BLOCK_SIZE) :
    ∀ (js : List (Fin BLOCK_SIZE)) (done : Fin BLOCK_SIZE → Fin BLOCK_SIZE → Prop) (g1 : TetrisGame),
      MergedCells done g0 g1 →
      ∃ g2, js.foldlM (fun g2 j => mergeCell g2 i j) g1 = some g2 ∧
        MergedCells (fun a b => done a b ∨ (a = i ∧ b ∈ js)) g0 g2 := by
  intro js
  induction js with
  | nil =>
    intro done g1 hm
    exact ⟨g1, rfl, MergedCells_congr (fun a b => by simp) hm⟩
  | cons j js ih =>
    intro done g1 hm
    obtain ⟨g2, h2, hm2⟩ := mergeCell_step done g0 g1 hin hm i j
    obtain ⟨g3, h3, hm3⟩ := ih _ g2 hm2
    refine ⟨g3, ?_, MergedCells_congr (fun a b => ?_) hm3⟩
    · rw [List.foldlM_cons, h2]; exact h3
    · simp only [List.mem_cons]; tauto

theorem mergeRows_spec (g0 : TetrisGame) (hin : PieceInGrid g0.currentPiece) :
    ∀ (is : List (Fin BLOCK_SIZE)) (done : Fin BLOCK_SIZE → Fin BLOCK_SIZE → Prop) (g1 : TetrisGame),
      MergedCells done g0 g1 →
      ∃ g2, is.foldlM
          (fun g1 i => (List.finRange BLOCK_SIZE).foldlM (fun g2 j => mergeCell g2 i j) g1) g1
            = some g2 ∧
        MergedCells (fun a b => done a b ∨ a ∈ is) g0 g2 := by
  intro is
  induction is with
  | nil =>
    intro done g1 hm
    exact ⟨g1, rfl, MergedCells_congr (fun a b => by simp) hm⟩
  | cons i is ih =>
    intro done g1 hm
    obtain ⟨g2, h2, hm2⟩ := mergeRow_spec g0 hin i (List.finRange BLOCK_SIZE) done g1 hm
    obtain ⟨g3, h3, hm3⟩ := ih _ g2 hm2
    refine ⟨g3, ?_, MergedCells_congr (fun a b => ?_) hm3⟩
    · rw [List.foldlM_cons, h2]; exact h3
    · simp only [List.mem_cons, List.mem_finRange, and_true]; tauto

/-- On a well-formed board with the piece inside the grid, `mergePiece` returns a
state: the occupied cells of the piece are written, all else is kept. -/
theorem mergePiece_spec (g : TetrisGame) (hg : GridOK g.grid) (hcg : GridOK g.colorGrid)
    (hin : PieceInGrid g.currentPiece) :
    ∃ g1, mergePiece g = some g1 ∧ MergedCells (fun _ _ => True) g g1 := by
  have h0 : MergedCells (fun _ _ => False) g g := by
    refine ⟨rfl, hg, hcg, fun r c => ⟨?_, fun _ => ⟨rfl, rfl⟩⟩⟩
    rintro ⟨i, j, hf, _⟩
    exact absurd hf id
  obtain ⟨g1, h1, hm1⟩ := mergeRows_spec g hin (List.finRange BLOCK_SIZE) _ g h0
  exact ⟨g1, h1, MergedCells_congr (fun a b => by simp) hm1⟩


theorem clearLinesStep_frame (g : TetrisGame) (i : Nat) :
    (clearLinesStep g i).currentPiece = g.currentPiece ∧
    (clearLinesStep g i).nextPieces = g.nextPieces ∧
    (clearLinesStep g i).heldPiece = g.heldPiece ∧
    (clearLinesStep g i).canHold = g.canHold ∧
    (clearLinesStep g i).paused = g.paused ∧
    (clearLinesStep g i).quit = g.quit ∧
    (clearLinesStep g i).randCalls = g.randCalls := by
  unfold clearLinesStep
  split <;> simp

theorem clearLines_frame (g : TetrisGame) :
    (clearLines g).currentPiece = g.currentPiece ∧
    (clearLines g).nextPieces = g.nextPieces ∧
    (clearLines g).heldPiece = g.heldPiece ∧
    (clearLines g).canHold = g.canHold ∧
    (clearLines g).paused = g.paused ∧
    (clearLines g).quit = g.quit ∧
    (clearLines g).randCalls = g.randCalls := by
  unfold clearLines
  generalize (List.range HEIGHT).reverse = l
  induction l generalizing g with
  | nil => simp
  | cons i l ih =>
    rw [List.foldl_cons]
    have h1 := ih (clearLinesStep g i)
    have h2 := clearLinesStep_frame g i
    refine ⟨h1.1.trans h2.1, h1.2.1.trans h2.2.1, h1.2.2.1.trans h2.2.2.1,
      h1.2.2.2.1.trans h2.2.2.2.1, h1.2.2.2.2.1.trans h2.2.2.2.2.1,
      h1.2.2.2.2.2.1.trans h2.2.2.2.2.2.1, h1.2.2.2.2.2.2.trans h2.2.2.2.2.2.2⟩

/-- When no row is full, `clearLines` changes nothing. -/
theorem clearLines_of_no_full_row (g : TetrisGame)
    (h : ∀ r, r < HEIGHT → rowFull g.grid r = false) : clearLines g = g := by
  unfold clearLines
  have key : ∀ l : List Nat, (∀ r ∈ l, r < HEIGHT) → l.foldl clearLinesStep g = g := by
    intro l
    induction l with
    | nil => intro _; rfl
    | cons i l ih =>
      intro hl
      rw [List.foldl_cons]
      have : clearLinesStep g i = g := by
        unfold clearLinesStep
        rw [h i (hl i (List.mem_cons_self _ _))]
        simp
      rw [this]
      exact ih (fun r hr => hl r (List.mem_cons_of_mem _ hr))
  apply key
  intro r hr
  simpa using hr

theorem generateLoop_frame (rand : Nat → Nat) (n : Nat) (g : TetrisGame) :
    (generateLoop rand n g).grid = g.grid ∧
    (generateLoop rand n g).colorGrid = g.colorGrid ∧
    (generateLoop rand n g).currentPiece = g.currentPiece ∧
    (generateLoop rand n g).heldPiece = g.heldPiece ∧
    (generateLoop rand n g).score = g.score := by
  induction n generalizing g with
  | zero => simp [generateLoop]
  | succ n ih =>
    unfold generateLoop
    split
    · have h := ih { g with
          nextPieces := g.nextPieces ++ [Tetromino.fresh (rand g.randCalls)]
          randCalls := g.randCalls + 1 }
      exact h
    · simp

theorem getNewPiece_frame (rand : Nat → Nat) (g : TetrisGame) :
    (getNewPiece rand g).grid = g.grid ∧
    (getNewPiece rand g).colorGrid = g.colorGrid ∧
    (getNewPiece rand g).heldPiece = g.heldPiece ∧
    (getNewPiece rand g).score = g.score := by
  rcases hq : g.nextPieces with _ | ⟨p, rest⟩
  · simp only [getNewPiece, generateNextPieces, hq]
    exact ⟨(generateLoop_frame rand 3 _).1, (generateLoop_frame rand 3 _).2.1,
      (generateLoop_frame rand 3 _).2.2.2.1, (generateLoop_frame rand 3 _).2.2.2.2⟩
  · simp only [getNewPiece, generateNextPieces, hq]
    exact ⟨(generateLoop_frame rand 3 _).1, (generateLoop_frame rand 3 _).2.1,
      (generateLoop_frame rand 3 _).2.2.2.1, (generateLoop_frame rand 3 _).2.2.2.2⟩

/-- With a non-empty queue, `getNewPiece` makes the front piece the active piece
at the spawn position (13, 0). -/
theorem getNewPiece_piece (rand : Nat → Nat) (g : TetrisGame) (p : Tetromino)
    (rest : List Tetromino) (hq : g.nextPieces = p :: rest) :
    (getNewPiece rand g).currentPiece = { p with x := 13, y := 0 } := by
  simp only [getNewPiece, generateNextPieces, hq, spawnX_eq]
  rw [(generateLoop_frame rand 3 _).2.2.1]

theorem handleInput_hardDrop (rand : Nat → Nat) (fuel : Nat) (g : TetrisGame) :
    handleInput rand fuel g KEY_h = hardDrop rand fuel g := by
  unfold handleInput handleKey
  cases hardDrop rand fuel g <;> simp [KEY_h, ERR, KEY_a, KEY_d, KEY_s, KEY_w]


/-- C10 (amended): on a `HEIGHT x WIDTH` board with the piece inside the grid,
`mergePiece` returns a state in which every occupied mask cell (i,j) of the
locked piece has `grid[y+i][x+j] = 1` and `colorGrid[y+i][x+j]` equal to the
colour of the piece.  The lock sequence of `update` (on a failed gravity step)
and of the hard drop (after the piece was moved down) ends in the state
`getNewPiece (clearLines g1)`; there the cells of the locked piece are still
occupied with its colour when no row of the merged board is full, and the
active piece is the former front of the queue at the spawn position (13, 0). -/
theorem lock_sequence_spec (rand : Nat → Nat) (g : TetrisGame)
    (hg : GridOK g.grid) (hcg : GridOK g.colorGrid) (hin : PieceInGrid g.currentPiece) :
    ∃ g1, mergePiece g = some g1 ∧
      (∀ i j : Fin BLOCK_SIZE, g.currentPiece.shape i j ≠ 0 →
        cellAt g1.grid (g.currentPiece.y + ((i : Nat) : Int)) (g.currentPiece.x + ((j : Nat) : Int)) = 1 ∧
        cellAt g1.colorGrid (g.currentPiece.y + ((i : Nat) : Int))
          (g.currentPiece.x + ((j : Nat) : Int)) = g.currentPiece.color) ∧
      (g.quit = false → g.paused = false →
        isValidMove g g.currentPiece.x (g.currentPiece.y + 1) = false →
        (update rand g).map Prod.snd = some (getNewPiece rand (clearLines g1))) ∧
      (∀ (fuel : Nat) (g0 : TetrisGame) (d : Nat), calculateHardDropPosition fuel g0 = some d →
        g = { g0 with currentPiece :=
          { g0.currentPiece with y := g0.currentPiece.y + (d : Int) } } →
        handleInput rand fuel g0 KEY_h = some (getNewPiece rand (clearLines g1))) ∧
      ((∀ r, r < HEIGHT → rowFull g1.grid r = false) →
        ∀ i j : Fin BLOCK_SIZE, g.currentPiece.shape i j ≠ 0 →
          cellAt (getNewPiece rand (clearLines g1)).grid (g.currentPiece.y + ((i : Nat) : Int))
            (g.currentPiece.x + ((j : Nat) : Int)) = 1 ∧
          cellAt (getNewPiece rand (clearLines g1)).colorGrid (g.currentPiece.y + ((i : Nat) : Int))
            (g.currentPiece.x + ((j : Nat) : Int)) = g.currentPiece.color) ∧
      (∀ (p : Tetromino) (rest : List Tetromino), g.nextPieces = p :: rest →
        (getNewPiece rand (clearLines g1)).currentPiece = { p with x := 13, y := 0 }) := by
  obtain ⟨g1, h1, hrest, _, _, hcells⟩ := mergePiece_spec g hg hcg hin
  have hcellsOn : ∀ i j : Fin BLOCK_SIZE, g.currentPiece.shape i j ≠ 0 →
      cellAt g1.grid (g.currentPiece.y + ((i : Nat) : Int)) (g.currentPiece.x + ((j : Nat) : Int)) = 1 ∧
      cellAt g1.colorGrid (g.currentPiece.y + ((i : Nat) : Int))
        (g.currentPiece.x + ((j : Nat) : Int)) = g.currentPiece.color :=
    fun i j hs => (hcells _ _).1 ⟨i, j, trivial, hs, rfl, rfl⟩
  refine ⟨g1, h1, hcellsOn, ?_, ?_, ?_, ?_⟩
  · intro hq hp hv
    rw [update_lock rand g hq hp hv, h1]
    rfl
  · intro fuel g0 d hd hgeq
    rw [handleInput_hardDrop, hardDrop_eq, hd, Option.some_bind, ← hgeq, h1]
    rfl
  · intro hnf i j hs
    rw [clearLines_of_no_full_row g1 hnf, (getNewPiece_frame rand g1).1,
      (getNewPiece_frame rand g1).2.1]
    exact hcellsOn i j hs
  · intro p rest hq
    apply getNewPiece_piece rand _ p rest
    rw [(clearLines_frame g1).2.1]
    have h := congrArg TetrisGame.nextPieces hrest
    exact h.trans hq

set_option maxRecDepth 1000000 in
/-- Witness for `lock_sequence_spec`: the I piece resting on the floor of the
empty board is locked by `update`, and by the hard drop from the initial state;
no row is full, the four cells stay occupied and the O piece from the queue
becomes the active piece. -/
theorem lock_sequence_spec_witness :
    GridOK restingGame.grid ∧ GridOK restingGame.colorGrid ∧
    PieceInGrid restingGame.currentPiece ∧
    ∃ g1, mergePiece restingGame = some g1 ∧
      (update randId restingGame).map Prod.snd = some (getNewPiece randId (clearLines g1)) ∧
      handleInput randId FUEL (TetrisGame.initial randId) KEY_h
        = some (getNewPiece randId (clearLines g1)) ∧
      cellAt (getNewPiece randId (clearLines g1)).grid 29 13 = 1 ∧
      (getNewPiece randId (clearLines g1)).currentPiece
        = { Tetromino.fresh 1 with x := 13, y := 0 } := by
  refine ⟨by decide, by decide, by decide, ?_⟩
  obtain ⟨g1, h1, _, h3, h4, h5, h6⟩ :=
    lock_sequence_spec randId restingGame (by decide) (by decide) (by decide)
  have hm : mergePiece restingGame = some ((mergePiece restingGame).getD restingGame) := by
    decide
  have hg1 : g1 = (mergePiece restingGame).getD restingGame :=
    Option.some.inj (h1.symm.trans hm)
  refine ⟨g1, h1, h3 (by decide) (by decide) (by decide),
    h4 FUEL (TetrisGame.initial randId) 28 (by decide) (by decide), ?_, ?_⟩
  · exact (h5 (by rw [hg1]; decide) 1 0 (by decide)).1
  · exact h6 (Tetromino.fresh 1) [Tetromino.fresh 2, Tetromino.fresh 3] (by decide)

set_option maxRecDepth 1000000 in
/-- C10 (counterexample): the I piece lies in row 29, columns 13..16, and
completes that row.  After the lock sequence run by `update`, and after the lock
sequence run by the hard drop from row 1 of the same column, the completed row
has been cleared: the cell (29,13) under the occupied mask cell (1,0) of the
locked piece is empty in the grid and in the colour grid. -/
theorem lock_clears_locked_cells :
    GridOK completingGame.grid ∧ GridOK completingGame.colorGrid ∧
    PieceInGrid completingGame.currentPiece ∧
    completingGame.currentPiece.shape 1 0 ≠ 0 ∧
    (completingGame.currentPiece.y + ((1 : Nat) : Int),
      completingGame.currentPiece.x + ((0 : Nat) : Int)) = (29, 13) ∧
    (update randId completingGame).map
        (fun r => (r.1, cellAt r.2.grid 29 13, cellAt r.2.colorGrid 29 13)) = some (true, 0, 0) ∧
    calculateHardDropPosition FUEL
        { completingGame with currentPiece := { completingGame.currentPiece with y := 0 } }
      = some 28 ∧
    (handleInput randId FUEL
        { completingGame with currentPiece := { completingGame.currentPiece with y := 0 } }
        KEY_h).map (fun g1 => (cellAt g1.grid 29 13, cellAt g1.colorGrid 29 13)) = some (0, 0) := by
  refine ⟨?_, ?_, ?_, ?_, ?_, ?_, ?_, ?_⟩ <;> decide

/-! ## The hard-drop distance -/

theorem isValidMove_false_of_low (g : TetrisGame) (newX newY : Int) (i j : Fin BLOCK_SIZE)
    (hs : g.currentPiece.shape i j ≠ 0) (h : newY + ((i : Nat) : Int) ≥ (HEIGHT : Int)) :
    isValidMove g newX newY = false :=
  (isValidMove_eq_false_iff g newX newY).2
    ⟨i, j, hs, (cellBlocked_eq_true_iff _ _ _).2 (Or.inr (Or.inr (Or.inl h)))⟩

/-- Soundness of the drop loop: a returned distance is reached through valid
placements only and the placement one row further down is not valid. -/
theorem dropLoop_sound (g : TetrisGame) :
    ∀ (fuel d0 d : Nat), dropLoop g fuel d0 = some d →
      d0 ≤ d ∧
      (∀ k : Nat, d0 < k → k ≤ d →
        isValidMove g g.currentPiece.x (g.currentPiece.y + (k : Int)) = true) ∧
      isValidMove g g.currentPiece.x (g.currentPiece.y + (d : Int) + 1) = false := by
  intro fuel
  induction fuel with
  | zero => intro d0 d h; simp [dropLoop] at h
  | succ fuel ih =>
    intro d0 d h
    unfold dropLoop at h
    by_cases hv : isValidMove g g.currentPiece.x (g.currentPiece.y + (d0 : Int) + 1) = true
    · rw [if_pos hv] at h
      obtain ⟨h1, h2, h3⟩ := ih (d0 + 1) d h
      refine ⟨by omega, ?_, h3⟩
      intro k hk1 hk2
      by_cases hk : k = d0 + 1
      · subst hk
        have e : g.currentPiece.y + ((d0 + 1 : Nat) : Int) = g.currentPiece.y + (d0 : Int) + 1 := by
          push_cast; ring
        rw [e]; exact hv
      · exact h2 k (by omega) hk2
    · rw [if_neg hv] at h
      have hd : d0 = d := Option.some.inj h
      subst hd
      refine ⟨le_refl _, ?_, by simpa using hv⟩
      intro k hk1 hk2
      omega

/-- Termination of the drop loop: when some placement further down is not valid,
enough fuel gives a result. -/
theorem dropLoop_terminates (g : TetrisGame) :
    ∀ (fuel d0 N : Nat), d0 < N →
      isValidMove g g.currentPiece.x (g.currentPiece.y + (N : Int)) = false →
      N - d0 ≤ fuel → ∃ d, dropLoop g fuel d0 = some d := by
  intro fuel
  induction fuel with
  | zero => intro d0 N h1 _ h3; omega
  | succ fuel ih =>
    intro d0 N h1 h2 h3
    unfold dropLoop
    by_cases hv : isValidMove g g.currentPiece.x (g.currentPiece.y + (d0 : Int) + 1) = true
    · rw [if_pos hv]
      have hne : d0 + 1 ≠ N := by
        intro e
        have e2 : g.currentPiece.y + (N : Int) = g.currentPiece.y + (d0 : Int) + 1 := by
          rw [← e]; push_cast; ring
        rw [e2, hv] at h2
        exact Bool.noConfusion h2
      exact ih (d0 + 1) N (by omega) h2 (by omega)
    · rw [if_neg hv]
      exact ⟨d0, rfl⟩

/-- C9 (amended): for every state whose active piece has an occupied mask cell
and is a valid placement at its current position, `calculateHardDropPosition`
returns (for every fuel of at least `HEIGHT - y + 1` loop passes, and with the
same result for any fuel that gives one) the maximum offset `d >= 0` such that
`isValidMove(x, y+k)` holds for every `k` in `0..d`; `isValidMove(x, y+d)` is
true and `isValidMove(x, y+d+1)` is false.  The hard-drop command runs the lock
sequence on the piece moved to row `y + d`. -/
theorem hard_drop_distance_spec (rand : Nat → Nat) (g : TetrisGame)
    (hmask : ∃ i j : Fin BLOCK_SIZE, g.currentPiece.shape i j ≠ 0)
    (hvalid : isValidMove g g.currentPiece.x g.currentPiece.y = true) :
    ∃ d : Nat,
      (∀ fuel, ((HEIGHT : Int) - g.currentPiece.y).toNat + 1 ≤ fuel →
        calculateHardDropPosition fuel g = some d) ∧
      (∀ fuel d2, calculateHardDropPosition fuel g = some d2 → d2 = d) ∧
      (∀ k : Nat, k ≤ d →
        isValidMove g g.currentPiece.x (g.currentPiece.y + (k : Int)) = true) ∧
      isValidMove g g.currentPiece.x (g.currentPiece.y + (d : Int)) = true ∧
      isValidMove g g.currentPiece.x (g.currentPiece.y + (d : Int) + 1) = false ∧
      (∀ d2 : Nat,
        (∀ k : Nat, k ≤ d2 →
          isValidMove g g.currentPiece.x (g.currentPiece.y + (k : Int)) = true) → d2 ≤ d) ∧
      (∀ fuel, ((HEIGHT : Int) - g.currentPiece.y).toNat + 1 ≤ fuel →
        handleInput rand fuel g KEY_h =
          (mergePiece { g with currentPiece :=
              { g.currentPiece with y := g.currentPiece.y + (d : Int) } }).map
            fun g1 => getNewPiece rand (clearLines g1)) := by
  obtain ⟨i, j, hs⟩ := hmask
  have hlow : isValidMove g g.currentPiece.x
      (g.currentPiece.y + ((((HEIGHT : Int) - g.currentPiece.y).toNat + 1 : Nat) : Int)) = false := by
    apply isValidMove_false_of_low g _ _ i j hs
    push_cast
    omega
  have hterm : ∀ fuel, ((HEIGHT : Int) - g.currentPiece.y).toNat + 1 ≤ fuel →
      ∃ d, dropLoop g fuel 0 = some d := fun fuel hf =>
    dropLoop_terminates g fuel 0 _ (Nat.succ_pos _) hlow (by omega)
  obtain ⟨d, hd⟩ := hterm _ (le_refl _)
  obtain ⟨_, hd2, hd3⟩ := dropLoop_sound g _ 0 d hd
  have hall : ∀ k : Nat, k ≤ d →
      isValidMove g g.currentPiece.x (g.currentPiece.y + (k : Int)) = true := by
    intro k hk
    by_cases h0 : k = 0
    · subst h0; simpa using hvalid
    · exact hd2 k (by omega) hk
  have hmax : ∀ d2 : Nat,
      (∀ k : Nat, k ≤ d2 →
        isValidMove g g.currentPiece.x (g.currentPiece.y + (k : Int)) = true) → d2 ≤ d := by
    intro d2 h2
    by_contra hlt
    have h3 := h2 (d + 1) (by omega)
    have e : g.currentPiece.y + ((d + 1 : Nat) : Int) = g.currentPiece.y + (d : Int) + 1 := by
      push_cast; ring
    rw [e, hd3] at h3
    exact Bool.noConfusion h3
  have huniq : ∀ fuel d2, calculateHardDropPosition fuel g = some d2 → d2 = d := by
    intro fuel d2 h
    obtain ⟨_, h2, h3⟩ := dropLoop_sound g fuel 0 d2 h
    apply le_antisymm
    · apply hmax
      intro k hk
      by_cases h0 : k = 0
      · subst h0; simpa using hvalid
      · exact h2 k (by omega) hk
    · by_contra hlt
      have h4 := hall (d2 + 1) (by omega)
      have e : g.currentPiece.y + ((d2 + 1 : Nat) : Int) = g.currentPiece.y + (d2 : Int) + 1 := by
        push_cast; ring
      rw [e, h3] at h4
      exact Bool.noConfusion h4
  have hcalc : ∀ fuel, ((HEIGHT : Int) - g.currentPiece.y).toNat + 1 ≤ fuel →
      calculateHardDropPosition fuel g = some d := by
    intro fuel hf
    obtain ⟨d2, h2⟩ := hterm fuel hf
    have := huniq fuel d2 h2
    subst this
    exact h2
  refine ⟨d, hcalc, huniq, hall, hall d (le_refl _), hd3, hmax, ?_⟩
  intro fuel hf
  rw [handleInput_hardDrop, hardDrop_eq, hcalc fuel hf, Option.some_bind]

set_option maxRecDepth 1000000 in
/-- Witness for `hard_drop_distance_spec`: the initial state of the game whose
first piece is the I piece; the computed distance is 28. -/
theorem hard_drop_distance_spec_witness :
    (∃ i j : Fin BLOCK_SIZE, (TetrisGame.initial randId).currentPiece.shape i j ≠ 0) ∧
    isValidMove (TetrisGame.initial randId) (TetrisGame.initial randId).currentPiece.x
      (TetrisGame.initial randId).currentPiece.y = true ∧
    ∃ d : Nat, calculateHardDropPosition FUEL (TetrisGame.initial randId) = some d ∧
      isValidMove (TetrisGame.initial randId) (TetrisGame.initial randId).currentPiece.x
        ((TetrisGame.initial randId).currentPiece.y + (d : Int) + 1) = false :=
  ⟨by decide, by decide,
    (hard_drop_distance_spec randId (TetrisGame.initial randId) (by decide) (by decide)).imp
      fun _ h => ⟨h.1 FUEL (by decide), h.2.2.2.2.1⟩⟩

set_option maxRecDepth 1000000 in
/-- C9 (counterexample): in the state after the run `towerKeys` the active O
piece (mask cells occupied) overlaps the stack at its spawn position.
`calculateHardDropPosition` returns 0, yet `isValidMove(x, y+0)` is false: no
offset `d >= 0` has `isValidMove(x, y+k)` true for every `k` in `0..d`. -/
theorem hard_drop_distance_invalid_start :
    runKeys (randConst 1) FUEL (TetrisGame.initial (randConst 1)) towerKeys = some blockedSpawn ∧
    pieceView blockedSpawn = (13, 0, [[0,0,0,0],[0,1,1,0],[0,1,1,0],[0,0,0,0]]) ∧
    blockedSpawn.currentPiece.shape 1 1 ≠ 0 ∧
    cellAt blockedSpawn.grid 2 14 = 1 ∧
    calculateHardDropPosition FUEL blockedSpawn = some 0 ∧
    isValidMove blockedSpawn blockedSpawn.currentPiece.x
      (blockedSpawn.currentPiece.y + ((0 : Nat) : Int)) = false ∧
    ¬ ∃ d : Nat, ∀ k : Nat, k ≤ d →
      isValidMove blockedSpawn blockedSpawn.currentPiece.x
        (blockedSpawn.currentPiece.y + (k : Int)) = true := by
  refine ⟨by decide, by decide, by decide, by decide, by decide, by decide, ?_⟩
  rintro ⟨d, hd⟩
  have h0 := hd 0 (Nat.zero_le _)
  have h1 : isValidMove blockedSpawn blockedSpawn.currentPiece.x
      (blockedSpawn.currentPiece.y + ((0 : Nat) : Int)) = false := by decide
  rw [h1] at h0
  exact Bool.noConfusion h0

/-! ## Rotation -/

/-- The closed form of the rotation loops: `temp[a][b] = shape[3 - b][a]`. -/
theorem rotateTemp_apply (shape : Mask) (a b : Fin BLOCK_SIZE) :
    rotateTemp shape a b = shape (Fin.rev b) a := by
  fin_cases a <;> fin_cases b <;> rfl

/-- C12: for every 4x4 mask, `Tetromino::rotate` replaces the mask by the mask
`result` with `result[j][3 - i] = source[i][j]` for all `i`, `j` in `[0,4)`, and
leaves `x`, `y`, `type` and `color` of the piece unchanged. -/
theorem rotate_spec (t : Tetromino) :
    (∀ i j : Fin BLOCK_SIZE, t.rotate.shape j (Fin.rev i) = t.shape i j) ∧
    (∀ i : Fin BLOCK_SIZE, ((Fin.rev i : Fin BLOCK_SIZE) : Nat) = BLOCK_SIZE - 1 - (i : Nat)) ∧
    t.rotate.x = t.x ∧ t.rotate.y = t.y ∧ t.rotate.type = t.type ∧ t.rotate.color = t.color := by
  refine ⟨?_, ?_, rfl, rfl, rfl, rfl⟩
  · intro i j
    show rotateTemp t.shape j (Fin.rev i) = t.shape i j
    rw [rotateTemp_apply, Fin.rev_rev]
  · intro i
    rw [Fin.val_rev]; omega

/-- C13: for every 4x4 mask, in particular each of the seven templates of
`SHAPES`, four successive applications of `Tetromino::rotate` give back the
original mask (and the original piece). -/
theorem rotate_four_times (t : Tetromino) :
    t.rotate.rotate.rotate.rotate = t ∧
    t.rotate.rotate.rotate.rotate.shape = t.shape ∧
    (∀ k : Fin 7, rotateTemp (rotateTemp (rotateTemp (rotateTemp (SHAPES k)))) = SHAPES k) := by
  have key : ∀ m : Mask, rotateTemp (rotateTemp (rotateTemp (rotateTemp m))) = m := by
    intro m
    funext a b
    simp only [rotateTemp_apply, Fin.rev_rev]
  have h : t.rotate.rotate.rotate.rotate = t := by
    show ({ t with shape := rotateTemp (rotateTemp (rotateTemp (rotateTemp t.shape))) } : Tetromino) = t
    rw [key]
  exact ⟨h, by rw [h], fun k => key _⟩

/-! ## `mergePiece`, `getNewPiece` and `update` -/

/-- C15: on a `HEIGHT x WIDTH` grid and colour grid, when all occupied mask cells
of the active piece lie inside the grid, `mergePiece` returns a state in which
`grid[y+i][x+j]` is 1 and `colorGrid[y+i][x+j]` is the colour of the piece for
every occupied mask cell (i,j); every other cell of `grid` and `colorGrid`, the
score, the queue and the hold slot (and the piece and the flags) are unchanged. -/
theorem mergePiece_frame (g : TetrisGame) (hg : GridOK g.grid) (hcg : GridOK g.colorGrid)
    (hin : PieceInGrid g.currentPiece) :
    ∃ g1, mergePiece g = some g1 ∧
      (∀ i j : Fin BLOCK_SIZE, g.currentPiece.shape i j ≠ 0 →
        cellAt g1.grid (g.currentPiece.y + ((i : Nat) : Int)) (g.currentPiece.x + ((j : Nat) : Int)) = 1 ∧
        cellAt g1.colorGrid (g.currentPiece.y + ((i : Nat) : Int))
          (g.currentPiece.x + ((j : Nat) : Int)) = g.currentPiece.color) ∧
      (∀ r c : Int,
        (¬ ∃ i j : Fin BLOCK_SIZE, g.currentPiece.shape i j ≠ 0 ∧
          r = g.currentPiece.y + ((i : Nat) : Int) ∧ c = g.currentPiece.x + ((j : Nat) : Int)) →
        cellAt g1.grid r c = cellAt g.grid r c ∧
        cellAt g1.colorGrid r c = cellAt g.colorGrid r c) ∧
      GridOK g1.grid ∧ GridOK g1.colorGrid ∧
      g1.score = g.score ∧ g1.nextPieces = g.nextPieces ∧ g1.heldPiece = g.heldPiece ∧
      g1.currentPiece = g.currentPiece ∧ g1.canHold = g.canHold ∧ g1.paused = g.paused ∧
      g1.quit = g.quit ∧ g1.randCalls = g.randCalls := by
  obtain ⟨g1, h1, hrest, hg1, hcg1, hcells⟩ := mergePiece_spec g hg hcg hin
  have e1 : g1.score = g.score := by
    have h := congrArg TetrisGame.score hrest; exact h
  have e2 : g1.nextPieces = g.nextPieces := by
    have h := congrArg TetrisGame.nextPieces hrest; exact h
  have e3 : g1.heldPiece = g.heldPiece := by
    have h := congrArg TetrisGame.heldPiece hrest; exact h
  have e4 : g1.currentPiece = g.currentPiece := by
    have h := congrArg TetrisGame.currentPiece hrest; exact h
  have e5 : g1.canHold = g.canHold := by
    have h := congrArg TetrisGame.canHold hrest; exact h
  have e6 : g1.paused = g.paused := by
    have h := congrArg TetrisGame.paused hrest; exact h
  have e7 : g1.quit = g.quit := by
    have h := congrArg TetrisGame.quit hrest; exact h
  have e8 : g1.randCalls = g.randCalls := by
    have h := congrArg TetrisGame.randCalls hrest; exact h
  refine ⟨g1, h1, ?_, ?_, hg1, hcg1, e1, e2, e3, e4, e5, e6, e7, e8⟩
  · intro i j hs
    exact (hcells _ _).1 ⟨i, j, trivial, hs, rfl, rfl⟩
  · intro r c hn
    apply (hcells r c).2
    rintro ⟨i, j, _, hs, hr, hc⟩
    exact hn ⟨i, j, hs, hr, hc⟩

set_option maxRecDepth 1000000 in
/-- Witness for `mergePiece_frame`: the I piece resting on the floor of the empty
board. -/
theorem mergePiece_frame_witness :
    GridOK restingGame.grid ∧ GridOK restingGame.colorGrid ∧
    PieceInGrid restingGame.currentPiece ∧
    ∃ g1, mergePiece restingGame = some g1 ∧
      cellAt g1.grid 29 13 = 1 ∧ cellAt g1.colorGrid 29 13 = CYAN ∧
      cellAt g1.grid 28 13 = 0 ∧ g1.score = 0 := by
  refine ⟨by decide, by decide, by decide, ?_⟩
  obtain ⟨g1, h1, h2, h3, _, _, h4, _⟩ :=
    mergePiece_frame restingGame (by decide) (by decide) (by decide)
  refine ⟨g1, h1, (h2 1 0 (by decide)).1, (h2 1 0 (by decide)).2, ?_, h4⟩
  have h := (h3 28 13 (by decide)).1
  rw [h]; decide

theorem range_succ_map_fresh (rand : Nat → Nat) (start k : Nat) :
    (List.range (k + 1)).map (fun n => Tetromino.fresh (rand (start + n))) =
      Tetromino.fresh (rand start) ::
        (List.range k).map (fun n => Tetromino.fresh (rand (start + 1 + n))) := by
  rw [List.range_succ_eq_map, List.map_cons, List.map_map]
  simp only [Nat.add_zero, List.cons.injEq, true_and]
  apply List.map_congr_left
  intro n _
  simp only [Function.comp, Nat.succ_eq_add_one]
  congr 2
  omega

/-- The queue after the loop of `generateNextPieces`: the old queue followed by
freshly constructed pieces, as many as were missing to reach length 3. -/
theorem generateLoop_queue (rand : Nat → Nat) (n : Nat) (g : TetrisGame) :
    (generateLoop rand n g).nextPieces =
      g.nextPieces ++ (List.range (min n (3 - g.nextPieces.length))).map
        (fun m => Tetromino.fresh (rand (g.randCalls + m))) := by
  induction n generalizing g with
  | zero => simp [generateLoop]
  | succ n ih =>
    unfold generateLoop
    by_cases hlen : g.nextPieces.length < 3
    · rw [if_pos hlen, ih]
      have e : min (n + 1) (3 - g.nextPieces.length)
          = min n (3 - (g.nextPieces ++ [Tetromino.fresh (rand g.randCalls)]).length) + 1 := by
        rw [List.length_append, List.length_singleton]; omega
      rw [e, range_succ_map_fresh]
      simp
    · rw [if_neg hlen]
      have e : min (n + 1) (3 - g.nextPieces.length) = 0 := by omega
      rw [e]; simp

theorem getNewPiece_position (rand : Nat → Nat) (g : TetrisGame) :
    (getNewPiece rand g).currentPiece.x = 13 ∧ (getNewPiece rand g).currentPiece.y = 0 := by
  simp [getNewPiece, spawnX_eq]

/-- C16: for every state with a non-empty queue, `getNewPiece` makes the former
front piece of the queue (its mask, type and colour) the active piece at x = 13,
y = 0.  The queue afterwards is the former rest of the queue, in its order,
followed by `3 - rest.length` freshly constructed pieces (none when the rest
has three pieces or more); its length is at least 3, and the old queue is the
dequeued front followed by a leading segment of the new queue. -/
theorem getNewPiece_queue (rand : Nat → Nat) (g : TetrisGame) (p : Tetromino)
    (rest : List Tetromino) (hq : g.nextPieces = p :: rest) :
    (getNewPiece rand g).currentPiece = { p with x := 13, y := 0 } ∧
    (getNewPiece rand g).currentPiece.shape = p.shape ∧
    (getNewPiece rand g).currentPiece.type = p.type ∧
    (getNewPiece rand g).currentPiece.color = p.color ∧
    (getNewPiece rand g).nextPieces =
      rest ++ (List.range (3 - rest.length)).map
        (fun m => Tetromino.fresh (rand (g.randCalls + m))) ∧
    3 ≤ (getNewPiece rand g).nextPieces.length ∧
    (getNewPiece rand g).nextPieces.take rest.length = rest ∧
    g.nextPieces = p :: (getNewPiece rand g).nextPieces.take rest.length := by
  have hp := getNewPiece_piece rand g p rest hq
  have hn : (getNewPiece rand g).nextPieces =
      rest ++ (List.range (3 - rest.length)).map
        (fun m => Tetromino.fresh (rand (g.randCalls + m))) := by
    simp only [getNewPiece, generateNextPieces, hq]
    rw [generateLoop_queue]
    have e : min 3 (3 - rest.length) = 3 - rest.length := by omega
    simp only [e]
  have ht : (getNewPiece rand g).nextPieces.take rest.length = rest := by
    rw [hn, List.take_left']
    rfl
  refine ⟨hp, by rw [hp], by rw [hp], by rw [hp], hn, ?_, ht, by rw [ht, hq]⟩
  rw [hn, List.length_append, List.length_map, List.length_range]
  omega

set_option maxRecDepth 100000 in
/-- Witness for `getNewPiece_queue`: the initial state of the game whose pieces
come as I, O, T, S, Z, ... -/
theorem getNewPiece_queue_witness :
    (TetrisGame.initial randId).nextPieces
      = Tetromino.fresh 1 :: [Tetromino.fresh 2, Tetromino.fresh 3] ∧
    (getNewPiece randId (TetrisGame.initial randId)).currentPiece
      = { Tetromino.fresh 1 with x := 13, y := 0 } ∧
    3 ≤ (getNewPiece randId (TetrisGame.initial randId)).nextPieces.length :=
  ⟨by decide,
    (getNewPiece_queue randId (TetrisGame.initial randId) (Tetromino.fresh 1)
      [Tetromino.fresh 2, Tetromino.fresh 3] (by decide)).1,
    (getNewPiece_queue randId (TetrisGame.initial randId) (Tetromino.fresh 1)
      [Tetromino.fresh 2, Tetromino.fresh 3] (by decide)).2.2.2.2.2.1⟩

/-- C17: in a state that is neither paused nor quit, when the active piece is a
valid placement one row lower, `update` returns true and the state in which `y`
has grown by exactly 1 and nothing else has changed.  Otherwise `update` runs
`mergePiece` on the piece where it is, then `clearLines`, then `getNewPiece`,
and returns false exactly when the new piece, which is at the spawn position
(13, 0), is not a valid placement there; on a `HEIGHT x WIDTH` board with the
piece inside the grid this lock sequence returns a state. -/
theorem update_spec (rand : Nat → Nat) (g : TetrisGame) (hq : g.quit = false)
    (hp : g.paused = false) :
    (isValidMove g g.currentPiece.x (g.currentPiece.y + 1) = true →
      update rand g =
        some (true, { g with currentPiece := { g.currentPiece with y := g.currentPiece.y + 1 } })) ∧
    (isValidMove g g.currentPiece.x (g.currentPiece.y + 1) = false →
      (mergePiece g = none → update rand g = none) ∧
      (∀ g1, mergePiece g = some g1 →
        update rand g =
          some (isValidMove (getNewPiece rand (clearLines g1)) 13 0,
            getNewPiece rand (clearLines g1)) ∧
        (getNewPiece rand (clearLines g1)).currentPiece.x = 13 ∧
        (getNewPiece rand (clearLines g1)).currentPiece.y = 0) ∧
      (GridOK g.grid → GridOK g.colorGrid → PieceInGrid g.currentPiece →
        ∃ g1, mergePiece g = some g1)) := by
  constructor
  · intro hv
    unfold update
    simp [hq, hp, hv]
  · intro hv
    have hu := update_lock rand g hq hp hv
    refine ⟨?_, ?_, ?_⟩
    · intro hm
      rw [hu, hm]; rfl
    · intro g1 hm
      have hpos := getNewPiece_position rand (clearLines g1)
      refine ⟨?_, hpos⟩
      rw [hu, hm, Option.map_some', hpos.1, hpos.2]
    · intro hg hcg hin
      obtain ⟨g1, h1, _⟩ := mergePiece_spec g hg hcg hin
      exact ⟨g1, h1⟩

set_option maxRecDepth 1000000 in
/-- Witness for `update_spec`: the initial state (the piece moves down) and the
I piece resting on the floor (the piece is locked, the O piece spawns and fits). -/
theorem update_spec_witness :
    update randId (TetrisGame.initial randId) =
      some (true, { TetrisGame.initial randId with
        currentPiece := { (TetrisGame.initial randId).currentPiece with
          y := (TetrisGame.initial randId).currentPiece.y + 1 } }) ∧
    ∃ g1, mergePiece restingGame = some g1 ∧
      update randId restingGame =
        some (isValidMove (getNewPiece randId (clearLines g1)) 13 0,
          getNewPiece randId (clearLines g1)) := by
  refine ⟨(update_spec randId (TetrisGame.initial randId) (by decide) (by decide)).1 (by decide), ?_⟩
  have h := (update_spec randId restingGame (by decide) (by decide)).2 (by decide)
  obtain ⟨g1, h1⟩ := h.2.2 (by decide) (by decide) (by decide)
  exact ⟨g1, h1, (h.2.1 g1 h1).1⟩

/-! ## Termination and result of the hard-drop loop -/

/-- Two results of the drop loop started at the same distance are equal. -/
theorem dropLoop_unique (g : TetrisGame) (fuel1 fuel2 d0 d1 d2 : Nat)
    (h1 : dropLoop g fuel1 d0 = some d1) (h2 : dropLoop g fuel2 d0 = some d2) : d1 = d2 := by
  obtain ⟨a1, a2, a3⟩ := dropLoop_sound g fuel1 d0 d1 h1
  obtain ⟨b1, b2, b3⟩ := dropLoop_sound g fuel2 d0 d2 h2
  have e1 : g.currentPiece.y + ((d1 + 1 : Nat) : Int) = g.currentPiece.y + (d1 : Int) + 1 := by
    push_cast; ring
  have e2 : g.currentPiece.y + ((d2 + 1 : Nat) : Int) = g.currentPiece.y + (d2 : Int) + 1 := by
    push_cast; ring
  rcases Nat.lt_trichotomy d1 d2 with h | h | h
  · have hv := b2 (d1 + 1) (by omega) (by omega)
    rw [e1, a3] at hv
    exact Bool.noConfusion hv
  · exact h
  · have hv := a2 (d2 + 1) (by omega) (by omega)
    rw [e2, b3] at hv
    exact Bool.noConfusion hv

/-- With an all-empty mask every placement is valid. -/
theorem isValidMove_of_empty_mask (g : TetrisGame)
    (hempty : ∀ i j : Fin BLOCK_SIZE, g.currentPiece.shape i j = 0) (newX newY : Int) :
    isValidMove g newX newY = true :=
  (isValidMove_eq_true_iff g newX newY).2 fun i j hs => absurd (hempty i j) hs

/-- With an all-empty mask the drop loop uses up any fuel. -/
theorem dropLoop_of_empty_mask (g : TetrisGame)
    (hempty : ∀ i j : Fin BLOCK_SIZE, g.currentPiece.shape i j = 0) :
    ∀ fuel d0 : Nat, dropLoop g fuel d0 = none := by
  intro fuel
  induction fuel with
  | zero => intro d0; rfl
  | succ fuel ih =>
    intro d0
    unfold dropLoop
    rw [if_pos (isValidMove_of_empty_mask g hempty _ _)]
    exact ih (d0 + 1)

/-- C20: for every board and every active piece whose mask has an occupied cell,
the loop of `calculateHardDropPosition` terminates: every fuel of at least
`HEIGHT - y + 1` passes gives the same distance `d`, and no fuel gives another.
Whenever `d > 0`, `y + d + r <= HEIGHT - 1` for the index `r` of the lowest
occupied mask row.  For an all-empty mask the loop does not terminate: no fuel
gives a result. -/
theorem hard_drop_loop_terminates (g : TetrisGame) :
    ((∃ i j : Fin BLOCK_SIZE, g.currentPiece.shape i j ≠ 0) →
      ∃ d : Nat,
        (∀ fuel, ((HEIGHT : Int) - g.currentPiece.y).toNat + 1 ≤ fuel →
          calculateHardDropPosition fuel g = some d) ∧
        (∀ fuel d2, calculateHardDropPosition fuel g = some d2 → d2 = d) ∧
        (∀ r : Fin BLOCK_SIZE, (∃ j, g.currentPiece.shape r j ≠ 0) →
          (∀ i j : Fin BLOCK_SIZE, g.currentPiece.shape i j ≠ 0 → i ≤ r) →
          0 < d → g.currentPiece.y + (d : Int) + ((r : Nat) : Int) ≤ (HEIGHT : Int) - 1)) ∧
    ((∀ i j : Fin BLOCK_SIZE, g.currentPiece.shape i j = 0) →
      ∀ fuel, calculateHardDropPosition fuel g = none) := by
  constructor
  · rintro ⟨i, j, hs⟩
    have hlow : isValidMove g g.currentPiece.x
        (g.currentPiece.y + ((((HEIGHT : Int) - g.currentPiece.y).toNat + 1 : Nat) : Int)) = false := by
      apply isValidMove_false_of_low g _ _ i j hs
      push_cast
      omega
    have hterm : ∀ fuel, ((HEIGHT : Int) - g.currentPiece.y).toNat + 1 ≤ fuel →
        ∃ d, dropLoop g fuel 0 = some d := fun fuel hf =>
      dropLoop_terminates g fuel 0 _ (Nat.succ_pos _) hlow (by omega)
    obtain ⟨d, hd⟩ := hterm _ (le_refl _)
    refine ⟨d, ?_, ?_, ?_⟩
    · intro fuel hf
      obtain ⟨d2, h2⟩ := hterm fuel hf
      have e := dropLoop_unique g _ _ 0 d2 d h2 hd
      subst e
      exact h2
    · intro fuel d2 h2
      exact dropLoop_unique g _ _ 0 d2 d h2 hd
    · rintro r ⟨jr, hr⟩ _ hpos
      have hv := (dropLoop_sound g _ 0 d hd).2.1 d hpos (le_refl _)
      have hb := (isValidMove_eq_true_iff g _ _).1 hv r jr hr
      have hnb : ¬ cellBlocked g.grid (g.currentPiece.x + ((jr : Nat) : Int))
          (g.currentPiece.y + (d : Int) + ((r : Nat) : Int)) = true := by
        rw [hb]; exact Bool.noConfusion
      rw [cellBlocked_eq_true_iff] at hnb
      push_neg at hnb
      omega
  · intro hempty fuel
    exact dropLoop_of_empty_mask g hempty fuel 0

set_option maxRecDepth 1000000 in
/-- Witness for `hard_drop_loop_terminates`: the I piece of the initial state
(lowest occupied row 1) drops by 28 rows; a piece with the all-empty mask gives
no result with 1000 passes. -/
theorem hard_drop_loop_terminates_witness :
    (∃ d : Nat, calculateHardDropPosition FUEL (TetrisGame.initial randId) = some d ∧
      (0 < d → (TetrisGame.initial randId).currentPiece.y + (d : Int) + ((1 : Nat) : Int)
        ≤ (HEIGHT : Int) - 1)) ∧
    calculateHardDropPosition 1000
      { TetrisGame.initial randId with
        currentPiece := { (TetrisGame.initial randId).currentPiece with shape := fun _ _ => 0 } }
      = none :=
  ⟨((hard_drop_loop_terminates (TetrisGame.initial randId)).1 (by decide)).imp
      fun _ h => ⟨h.1 FUEL (by decide), h.2.2 1 (by decide) (by decide)⟩,
    (hard_drop_loop_terminates _).2 (fun _ _ => rfl) 1000⟩


set_option maxRecDepth 1000000 in
/-- C14: on a board with no occupied cell, for an active piece with an occupied
mask cell whose current placement is valid, `calculateHardDropPosition` returns
the distance `d` with `y + d = HEIGHT - r - 1`, where `r` is the index of the
lowest occupied row of the mask, and the hard-drop command runs the lock
sequence on the piece moved to that row.  For the O shape on the empty 30x30
board (lowest occupied mask row 2) the distance is 27 and the piece is merged
into rows 28 and 29, columns 14 and 15. -/
theorem hard_drop_on_empty_board :
    (∀ (rand : Nat → Nat) (g : TetrisGame) (r : Fin BLOCK_SIZE),
      (∀ row col : Int, cellAt g.grid row col = 0) →
      (∃ j, g.currentPiece.shape r j ≠ 0) →
      (∀ i j : Fin BLOCK_SIZE, g.currentPiece.shape i j ≠ 0 → i ≤ r) →
      isValidMove g g.currentPiece.x g.currentPiece.y = true →
      ∃ d : Nat,
        g.currentPiece.y + (d : Int) = (HEIGHT : Int) - ((r : Nat) : Int) - 1 ∧
        ∀ fuel, ((HEIGHT : Int) - g.currentPiece.y).toNat + 1 ≤ fuel →
          calculateHardDropPosition fuel g = some d ∧
          handleInput rand fuel g KEY_h =
            (mergePiece { g with currentPiece :=
                { g.currentPiece with y := (HEIGHT : Int) - ((r : Nat) : Int) - 1 } }).map
              fun g1 => getNewPiece rand (clearLines g1)) ∧
    (maskRows (TetrisGame.initial (randConst 1)).currentPiece.shape
        = [[0,0,0,0],[0,1,1,0],[0,1,1,0],[0,0,0,0]] ∧
      calculateHardDropPosition FUEL (TetrisGame.initial (randConst 1)) = some 27 ∧
      (handleInput (randConst 1) FUEL (TetrisGame.initial (randConst 1)) KEY_h).map
          (fun g1 => (g1.grid.drop 28).map (fun row => (row.drop 13).take 4))
        = some [[0,1,1,0],[0,1,1,0]] ∧
      (handleInput (randConst 1) FUEL (TetrisGame.initial (randConst 1)) KEY_h).map
          (fun g1 => (g1.grid.take 28).all (fun row => row.all (fun v => v == 0)))
        = some true) := by
  constructor
  · intro rand g r hempty hr hlowest hvalid
    obtain ⟨jr, hjr⟩ := hr
    have hlow : isValidMove g g.currentPiece.x
        (g.currentPiece.y + ((((HEIGHT : Int) - g.currentPiece.y).toNat + 1 : Nat) : Int)) = false := by
      apply isValidMove_false_of_low g _ _ r jr hjr
      push_cast
      omega
    have hterm : ∀ fuel, ((HEIGHT : Int) - g.currentPiece.y).toNat + 1 ≤ fuel →
        ∃ d, dropLoop g fuel 0 = some d := fun fuel hf =>
      dropLoop_terminates g fuel 0 _ (Nat.succ_pos _) hlow (by omega)
    obtain ⟨d, hd⟩ := hterm _ (le_refl _)
    obtain ⟨_, hd2, hd3⟩ := dropLoop_sound g _ 0 d hd
    have hcur := (isValidMove_eq_true_iff g _ _).1 hvalid
    -- the piece is valid at `y + d`
    have hvd : isValidMove g g.currentPiece.x (g.currentPiece.y + (d : Int)) = true := by
      by_cases h0 : d = 0
      · subst h0; simpa using hvalid
      · exact hd2 d (by omega) (le_refl _)
    have hupper : g.currentPiece.y + (d : Int) + ((r : Nat) : Int) < (HEIGHT : Int) := by
      have hb := (isValidMove_eq_true_iff g _ _).1 hvd r jr hjr
      have hnb : ¬ cellBlocked g.grid (g.currentPiece.x + ((jr : Nat) : Int))
          (g.currentPiece.y + (d : Int) + ((r : Nat) : Int)) = true := by
        rw [hb]; exact Bool.noConfusion
      rw [cellBlocked_eq_true_iff] at hnb
      push_neg at hnb
      omega
    have hlower : (HEIGHT : Int) ≤ g.currentPiece.y + (d : Int) + 1 + ((r : Nat) : Int) := by
      obtain ⟨i, j, hs, hb⟩ := (isValidMove_eq_false_iff g _ _).1 hd3
      rw [cellBlocked_eq_true_iff] at hb
      have hcb := hcur i j hs
      have hncb : ¬ cellBlocked g.grid (g.currentPiece.x + ((j : Nat) : Int))
          (g.currentPiece.y + ((i : Nat) : Int)) = true := by
        rw [hcb]; exact Bool.noConfusion
      rw [cellBlocked_eq_true_iff] at hncb
      push_neg at hncb
      have hir : ((i : Nat) : Int) ≤ ((r : Nat) : Int) := by
        have := hlowest i j hs
        exact_mod_cast this
      rcases hb with hb | hb | hb | hb
      · omega
      · omega
      · omega
      · exact absurd (hempty _ _) hb.2
    have hyd : g.currentPiece.y + (d : Int) = (HEIGHT : Int) - ((r : Nat) : Int) - 1 := by omega
    refine ⟨d, hyd, ?_⟩
    intro fuel hf
    have hcalc : calculateHardDropPosition fuel g = some d := by
      obtain ⟨d2, h2⟩ := hterm fuel hf
      have e := dropLoop_unique g _ _ 0 d2 d h2 hd
      subst e
      exact h2
    refine ⟨hcalc, ?_⟩
    rw [handleInput_hardDrop, hardDrop_eq, hcalc, Option.some_bind, hyd]
  · refine ⟨?_, ?_, ?_, ?_⟩ <;> decide

set_option maxRecDepth 1000000 in
/-- Witness for `hard_drop_on_empty_board`: the O piece of the initial state of
the game whose pieces are all O, with lowest occupied mask row 2. -/
theorem hard_drop_on_empty_board_witness :
    ∃ d : Nat,
      (TetrisGame.initial (randConst 1)).currentPiece.y + (d : Int)
        = (HEIGHT : Int) - ((2 : Nat) : Int) - 1 ∧
      calculateHardDropPosition FUEL (TetrisGame.initial (randConst 1)) = some d :=
  (hard_drop_on_empty_board.1 (randConst 1) (TetrisGame.initial (randConst 1)) 2
      (by
        intro row col
        unfold cellAt
        split
        · have hg : (TetrisGame.initial (randConst 1)).grid
              = List.replicate HEIGHT (List.replicate WIDTH 0) := by decide
          rw [hg]
          simp only [List.getD_eq_getElem?_getD, List.getElem?_replicate]
          split
          · simp only [Option.getD_some, List.getElem?_replicate]
            split <;> rfl
          · rfl
        · rfl)
      (by decide) (by decide) (by decide)).imp
    fun _ h => ⟨h.1, (h.2 FUEL (by decide)).1⟩

/-! ## The descending loop of `clearLines` -/

theorem rowFull_eq (grid : List (List Int)) (i : Nat) :
    rowFull grid i = rowIsFull (grid.getD i []) := by
  simp [rowFull, rowIsFull, cellAt]

theorem rowIsFull_emptyRow : rowIsFull emptyRow = false := by decide

theorem selectRows_append {α : Type} (bs1 bs2 : List Bool) (rs1 rs2 : List α)
    (h : bs1.length = rs1.length) :
    selectRows (bs1 ++ bs2) (rs1 ++ rs2) = selectRows bs1 rs1 ++ selectRows bs2 rs2 := by
  induction bs1 generalizing rs1 with
  | nil =>
    cases rs1 with
    | nil => cases bs2 <;> cases rs2 <;> simp [selectRows]
    | cons r rs => simp at h
  | cons b bs ih =>
    cases rs1 with
    | nil => simp at h
    | cons r rs =>
      simp only [List.length_cons, Nat.add_right_cancel_iff] at h
      have e := ih rs h
      cases b
      · show selectRows (bs ++ bs2) (rs ++ rs2) = selectRows bs rs ++ selectRows bs2 rs2
        exact e
      · show r :: selectRows (bs ++ bs2) (rs ++ rs2) = r :: selectRows bs rs ++ selectRows bs2 rs2
        rw [e]; rfl

theorem Swept_length {rows : List (List Int)} {flags : List Bool} (h : Swept rows flags) :
    flags.length = rows.length := by
  induction h with
  | nil => rfl
  | keep rows flags a _ _ ih => simp [ih]
  | last a _ => rfl
  | skip rows flags s a _ _ ih => simp [ih]

theorem getD_append_at {α : Type} (l1 l2 : List α) (a d : α) :
    (l1 ++ a :: l2).getD l1.length d = a := by
  induction l1 with
  | nil => rfl
  | cons x l1 ih => simpa using ih

theorem eraseIdx_append_at {α : Type} (l1 l2 : List α) (a : α) :
    (l1 ++ a :: l2).eraseIdx l1.length = l1 ++ l2 := by
  induction l1 with
  | nil => rfl
  | cons x l1 ih => simp [List.eraseIdx, ih]

theorem getD_replicate_append {α : Type} (c m : Nat) (e d : α) (l : List α) (h : m < c) :
    (List.replicate c e ++ l).getD m d = e := by
  simp [List.getD_eq_getElem?_getD, List.getElem?_append, h]


theorem clearLinesStep_of_not_full (g : TetrisGame) (m : Nat)
    (h : rowIsFull (g.grid.getD m []) = false) : clearLinesStep g m = g := by
  unfold clearLinesStep
  rw [rowFull_eq, h]
  simp

theorem clearLinesStep_of_full (g : TetrisGame) (m : Nat)
    (h : rowIsFull (g.grid.getD m []) = true) :
    clearLinesStep g m =
      { g with
        grid := emptyRow :: g.grid.eraseIdx m
        colorGrid := emptyRow :: g.colorGrid.eraseIdx m
        score := g.score + 100 } := by
  unfold clearLinesStep
  rw [rowFull_eq, h]
  rfl

theorem eq_nil_or_snoc {α : Type} (l : List α) : l = [] ∨ ∃ L b, l = L ++ [b] := by
  rcases List.eq_nil_or_concat l with h | ⟨L, b, h⟩
  · exact Or.inl h
  · exact Or.inr ⟨L, b, by rw [h, List.concat_eq_append]⟩

theorem range_succ_reverse (m : Nat) :
    (List.range (m + 1)).reverse = m :: (List.range m).reverse := by
  rw [List.range_succ, List.reverse_append]
  rfl

/-- The descending loop of `clearLines` on the rows `A` under `c` empty rows:
the loop over the indices `n-1 .. 0` keeps the rows that `Swept` flags, adds an
empty row at the top for every removed row and 100 points for each. -/
theorem sweep_fold : ∀ (n c : Nat) (A CA K CK : List (List Int)) (g : TetrisGame),
    A.length = CA.length →
    g.grid = (List.replicate c emptyRow ++ A) ++ K →
    g.colorGrid = (List.replicate c emptyRow ++ CA) ++ CK →
    (n = c + A.length ∨ (A = [] ∧ n ≤ c)) →
    ∃ flags, Swept A flags ∧
      ((List.range n).reverse.foldl clearLinesStep g).grid =
        (List.replicate (c + flags.count false) emptyRow ++ selectRows flags A) ++ K ∧
      ((List.range n).reverse.foldl clearLinesStep g).colorGrid =
        (List.replicate (c + flags.count false) emptyRow ++ selectRows flags CA) ++ CK ∧
      ((List.range n).reverse.foldl clearLinesStep g).score =
        g.score + 100 * ((flags.count false : Nat) : Int) := by
  intro n
  induction n with
  | zero =>
    intro c A CA K CK g hlen hg hcg hn
    have hA : A = [] := by
      rcases hn with h | h
      · exact List.length_eq_zero.1 (by omega)
      · exact h.1
    subst hA
    have hCA : CA = [] := List.length_eq_zero.1 hlen.symm
    subst hCA
    refine ⟨[], Swept.nil, ?_, ?_, ?_⟩
    · simpa [selectRows] using hg
    · simpa [selectRows] using hcg
    · simp
  | succ m ih =>
    intro c A CA K CK g hlen hg hcg hn
    rw [range_succ_reverse, List.foldl_cons]
    rcases eq_nil_or_snoc A with hA | ⟨A1, a, hA⟩
    · -- only empty rows are left above the kept rows
      subst hA
      have hCA : CA = [] := List.length_eq_zero.1 hlen.symm
      subst hCA
      have hmc : m < c := by
        rcases hn with h | h
        · simp at h; omega
        · omega
      have hrow : g.grid.getD m [] = emptyRow := by
        rw [hg, List.append_nil, getD_replicate_append _ _ _ _ _ hmc]
      rw [clearLinesStep_of_not_full g m (by rw [hrow]; exact rowIsFull_emptyRow)]
      exact ih c [] [] K CK g rfl hg hcg (Or.inr ⟨rfl, by omega⟩)
    · subst hA
      rcases eq_nil_or_snoc CA with hCA | ⟨CA1, ca, hCA⟩
      · subst hCA; simp at hlen
      subst hCA
      have hlen1 : A1.length = CA1.length := by simpa using hlen
      have hm : m = (List.replicate c emptyRow ++ A1).length := by
        rcases hn with h | h
        · simp at h ⊢; omega
        · exact absurd h.1 (by simp)
      have hmc : m = (List.replicate c emptyRow ++ CA1).length := by
        rw [hm]; simp [hlen1]
      have hg2 : g.grid = (List.replicate c emptyRow ++ A1) ++ a :: K := by
        rw [hg]; simp
      have hcg2 : g.colorGrid = (List.replicate c emptyRow ++ CA1) ++ ca :: CK := by
        rw [hcg]; simp
      have hrow : g.grid.getD m [] = a := by
        rw [hg2, hm, getD_append_at]
      by_cases hfull : rowIsFull a = true
      · -- the row is full: it is erased and an empty row is put on top
        have hstep := clearLinesStep_of_full g m (by rw [hrow]; exact hfull)
        have hgrid : (clearLinesStep g m).grid
            = (List.replicate (c + 1) emptyRow ++ A1) ++ K := by
          rw [hstep]
          show emptyRow :: g.grid.eraseIdx m = _
          rw [hg2, hm, eraseIdx_append_at, List.replicate_succ]
          simp
        have hcgrid : (clearLinesStep g m).colorGrid
            = (List.replicate (c + 1) emptyRow ++ CA1) ++ CK := by
          rw [hstep]
          show emptyRow :: g.colorGrid.eraseIdx m = _
          rw [hcg2, hmc, eraseIdx_append_at, List.replicate_succ]
          simp
        have hscore : (clearLinesStep g m).score = g.score + 100 := by
          rw [hstep]
        rcases eq_nil_or_snoc A1 with hA1 | ⟨A2, s, hA1⟩
        · subst hA1
          have hCA1 : CA1 = [] := List.length_eq_zero.1 hlen1.symm
          subst hCA1
          have hmeq : m = c := by simpa using hm
          obtain ⟨flags, hsw, h1, h2, h3⟩ := ih (c + 1) [] [] K CK (clearLinesStep g m) rfl
            hgrid hcgrid (Or.inr ⟨rfl, by omega⟩)
          have hnil : flags = [] := List.length_eq_zero.1 (Swept_length hsw)
          subst hnil
          refine ⟨[false], Swept.last a hfull, ?_, ?_, ?_⟩
          · rw [h1]; simp [selectRows]
          · rw [h2]; simp [selectRows]
          · rw [h3, hscore]; simp
        · subst hA1
          rcases eq_nil_or_snoc CA1 with hCA1 | ⟨CA2, cs, hCA1⟩
          · subst hCA1; simp at hlen1
          subst hCA1
          have hlen2 : A2.length = CA2.length := by simpa using hlen1
          have hgrid2 : (clearLinesStep g m).grid
              = (List.replicate (c + 1) emptyRow ++ A2) ++ s :: K := by
            rw [hgrid]; simp
          have hcgrid2 : (clearLinesStep g m).colorGrid
              = (List.replicate (c + 1) emptyRow ++ CA2) ++ cs :: CK := by
            rw [hcgrid]; simp
          obtain ⟨flags, hsw, h1, h2, h3⟩ := ih (c + 1) A2 CA2 (s :: K) (cs :: CK)
            (clearLinesStep g m) hlen2 hgrid2 hcgrid2
            (Or.inl (by simp at hm; omega))
          have hfl := Swept_length hsw
          refine ⟨flags ++ [true, false], ?_, ?_, ?_, ?_⟩
          · have := Swept.skip A2 flags s a hsw hfull
            simpa using this
          · rw [h1]
            have e : selectRows (flags ++ [true, false]) (A2 ++ [s] ++ [a])
                = selectRows flags A2 ++ [s] := by
              rw [List.append_assoc, selectRows_append _ _ _ _ hfl]
              rfl
            rw [e, List.count_append]
            simp [Nat.add_assoc, Nat.add_comm 1]
          · rw [h2]
            have e : selectRows (flags ++ [true, false]) (CA2 ++ [cs] ++ [ca])
                = selectRows flags CA2 ++ [cs] := by
              rw [List.append_assoc, selectRows_append _ _ _ _ (hfl.trans hlen2)]
              rfl
            rw [e, List.count_append]
            simp [Nat.add_assoc, Nat.add_comm 1]
          · rw [h3, hscore, List.count_append]
            simp
            ring
      · -- the row is not full: it is kept
        have hnf : rowIsFull a = false := by simpa using hfull
        rw [clearLinesStep_of_not_full g m (by rw [hrow]; exact hnf)]
        obtain ⟨flags, hsw, h1, h2, h3⟩ := ih c A1 CA1 (a :: K) (ca :: CK) g hlen1 hg2 hcg2
          (Or.inl (by simp at hm; omega))
        have hfl := Swept_length hsw
        refine ⟨flags ++ [true], Swept.keep A1 flags a hsw hnf, ?_, ?_, ?_⟩
        · rw [h1, selectRows_append _ _ _ _ hfl, List.count_append]
          simp [selectRows]
        · rw [h2, selectRows_append _ _ _ _ (hfl.trans hlen1), List.count_append]
          simp [selectRows]
        · rw [h3, List.count_append]
          simp


/-- A row is removed only when it is full. -/
theorem Swept_flag_false {rows : List (List Int)} {flags : List Bool} (h : Swept rows flags) :
    ∀ i, i < rows.length → flags.getD i true = false → rowIsFull (rows.getD i []) = true := by
  induction h with
  | nil => intro i hi; simp at hi
  | keep rows flags a hs _ ih =>
    intro i hi hf
    have hl := Swept_length hs
    by_cases h1 : i < rows.length
    · rw [List.getD_append _ _ _ _ (by omega)] at hf
      rw [List.getD_append _ _ _ _ h1]
      exact ih i h1 hf
    · rw [List.getD_append_right _ _ _ _ (by omega)] at hf
      have hi2 : i - flags.length = 0 := by simp at hi; omega
      rw [hi2] at hf
      exact absurd hf (by decide)
  | last a ha =>
    intro i hi _
    have hi0 : i = 0 := by simp at hi; omega
    subst hi0
    exact ha
  | skip rows flags s a hs ha ih =>
    intro i hi hf
    have hl := Swept_length hs
    by_cases h1 : i < rows.length
    · rw [List.getD_append _ _ _ _ (by omega)] at hf
      rw [List.getD_append _ _ _ _ h1]
      exact ih i h1 hf
    · rw [List.getD_append_right _ _ _ _ (by omega)] at hf
      rw [List.getD_append_right _ _ _ _ (by omega)]
      simp at hi
      by_cases h2 : i = rows.length
      · have hi2 : i - flags.length = 0 := by omega
        rw [hi2] at hf
        exact absurd hf (by decide)
      · have hi2 : i - rows.length = 1 := by omega
        rw [hi2]
        exact ha

/-- When no two full rows are adjacent, exactly the full rows are removed. -/
theorem Swept_of_no_adjacent {rows : List (List Int)} {flags : List Bool} (h : Swept rows flags)
    (hadj : List.Chain' (fun r1 r2 => ¬ (rowIsFull r1 = true ∧ rowIsFull r2 = true)) rows) :
    flags = rows.map (fun r => !rowIsFull r) := by
  induction h with
  | nil => rfl
  | keep rows flags a _ ha ih =>
    rw [ih hadj.left_of_append]
    simp [ha]
  | last a ha => simp [ha]
  | skip rows flags s a _ ha ih =>
    have h2 : ¬ (rowIsFull s = true ∧ rowIsFull a = true) :=
      List.chain'_pair.1 hadj.right_of_append
    have hs : rowIsFull s = false := by
      cases hsf : rowIsFull s
      · rfl
      · exact absurd ⟨hsf, ha⟩ h2
    rw [ih hadj.left_of_append]
    simp [ha, hs]

theorem selectRows_mem {α : Type} (flags : List Bool) (rows : List α) (r : α)
    (h : r ∈ selectRows flags rows) : r ∈ rows := by
  induction flags generalizing rows with
  | nil => simp [selectRows] at h
  | cons b bs ih =>
    cases rows with
    | nil => simp [selectRows] at h
    | cons x xs =>
      cases b
      · exact List.mem_cons_of_mem _ (ih xs h)
      · rcases List.mem_cons.1 h with h1 | h1
        · rw [h1]; exact List.mem_cons_self _ _
        · exact List.mem_cons_of_mem _ (ih xs h1)

theorem selectRows_length {α : Type} (flags : List Bool) (rows : List α)
    (h : flags.length = rows.length) :
    (selectRows flags rows).length + flags.count false = rows.length := by
  induction flags generalizing rows with
  | nil =>
    cases rows with
    | nil => rfl
    | cons x xs => simp at h
  | cons b bs ih =>
    cases rows with
    | nil => simp at h
    | cons x xs =>
      simp only [List.length_cons, Nat.add_right_cancel_iff] at h
      have e := ih xs h
      cases b
      · show (selectRows bs xs).length + (false :: bs).count false = xs.length + 1
        rw [List.count_cons_self]; omega
      · show (x :: selectRows bs xs).length + (true :: bs).count false = xs.length + 1
        rw [List.count_cons_of_ne (by decide), List.length_cons]; omega

theorem selectRows_not_full (rows : List (List Int)) :
    selectRows (rows.map (fun r => !rowIsFull r)) rows = rows.filter (fun r => !rowIsFull r) ∧
    (rows.map (fun r => !rowIsFull r)).count false = rows.countP rowIsFull := by
  induction rows with
  | nil => exact ⟨rfl, rfl⟩
  | cons x xs ih =>
    cases hx : rowIsFull x
    · constructor
      · show (if (!rowIsFull x) = true then x :: selectRows _ xs else selectRows _ xs) = _
        rw [ih.1]; simp [hx]
      · simp [hx, List.countP_cons, ih.2]
    · constructor
      · show (if (!rowIsFull x) = true then x :: selectRows _ xs else selectRows _ xs) = _
        rw [ih.1]; simp [hx]
      · simp [hx, List.countP_cons, ih.2]

/-- The result of `clearLines` on boards with `HEIGHT` rows. -/
theorem clearLines_swept (g : TetrisGame) (hl : g.grid.length = HEIGHT)
    (hcl : g.colorGrid.length = HEIGHT) :
    ∃ flags, Swept g.grid flags ∧
      (clearLines g).grid =
        List.replicate (flags.count false) emptyRow ++ selectRows flags g.grid ∧
      (clearLines g).colorGrid =
        List.replicate (flags.count false) emptyRow ++ selectRows flags g.colorGrid ∧
      (clearLines g).score = g.score + 100 * ((flags.count false : Nat) : Int) := by
  obtain ⟨flags, hsw, h1, h2, h3⟩ := sweep_fold HEIGHT 0 g.grid g.colorGrid [] [] g
    (hl.trans hcl.symm) (by simp) (by simp) (Or.inl (by simp [hl]))
  refine ⟨flags, hsw, ?_, ?_, h3⟩
  · unfold clearLines; rw [h1]; simp
  · unfold clearLines; rw [h2]; simp

theorem GridOK_swept (rows : List (List Int)) (flags : List Bool) (hok : GridOK rows)
    (hlen : flags.length = rows.length) :
    GridOK (List.replicate (flags.count false) emptyRow ++ selectRows flags rows) := by
  constructor
  · rw [List.length_append, List.length_replicate, Nat.add_comm, selectRows_length _ _ hlen]
    exact hok.1
  · intro row hrow
    rcases List.mem_append.1 hrow with h | h
    · rw [(List.mem_replicate.1 h).2]
      simp [emptyRow]
    · exact hok.2 _ (selectRows_mem _ _ _ h)


theorem map_range_getD (rows : List (List Int)) :
    (List.range rows.length).map (fun i => rows.getD i []) = rows := by
  apply List.ext_getElem
  · simp
  · intro i h1 h2
    simp only [List.getElem_map, List.getElem_range]
    exact List.getD_eq_getElem _ _ h2

theorem countP_rowFull (grid : List (List Int)) :
    grid.countP rowIsFull = (List.range grid.length).countP (fun i => rowFull grid i) := by
  conv_lhs => rw [← map_range_getD grid]
  rw [List.countP_map]
  congr 1

/-- C19: on a `HEIGHT x WIDTH` board `clearLines` keeps the board shape and
neither loses nor reorders unfinished rows.  There are flags, one per row, that
are false only at full rows of the original grid, such that with `k` the number
of false flags the new grid is `k` all-empty rows followed by the original rows
with a true flag, in their order, and the new colour grid is `k` all-empty rows
followed by the original colour rows with a true flag: the same row indices are
removed from both.  Grid and colour grid still have `HEIGHT` rows of `WIDTH`
cells, and every row that was not full has a true flag. -/
theorem clearLines_keeps_rows (g : TetrisGame) (hg : GridOK g.grid) (hcg : GridOK g.colorGrid) :
    ∃ flags : List Bool, flags.length = HEIGHT ∧
      (∀ i, i < HEIGHT → flags.getD i true = false → rowFull g.grid i = true) ∧
      (∀ i, i < HEIGHT → rowFull g.grid i = false → flags.getD i true = true) ∧
      (clearLines g).grid =
        List.replicate (flags.count false) emptyRow ++ selectRows flags g.grid ∧
      (clearLines g).colorGrid =
        List.replicate (flags.count false) emptyRow ++ selectRows flags g.colorGrid ∧
      GridOK (clearLines g).grid ∧ GridOK (clearLines g).colorGrid := by
  obtain ⟨flags, hsw, h1, h2, _⟩ := clearLines_swept g hg.1 hcg.1
  have hlen := Swept_length hsw
  have hfalse : ∀ i, i < HEIGHT → flags.getD i true = false → rowFull g.grid i = true := by
    intro i hi hf
    rw [rowFull_eq]
    exact Swept_flag_false hsw i (by rw [hg.1]; exact hi) hf
  refine ⟨flags, hlen.trans hg.1, hfalse, ?_, h1, h2, ?_, ?_⟩
  · intro i hi hnf
    cases hfl : flags.getD i true
    · have := hfalse i hi hfl
      rw [hnf] at this
      exact Bool.noConfusion this
    · rfl
  · rw [h1]; exact GridOK_swept _ _ hg hlen
  · rw [h2]; exact GridOK_swept _ _ hcg (hlen.trans (hg.1.trans hcg.1.symm))

set_option maxRecDepth 1000000 in
/-- Witness for `clearLines_keeps_rows`: the board with two adjacent full rows
above a gapped row. -/
theorem clearLines_keeps_rows_witness :
    GridOK stackedGame.grid ∧ GridOK stackedGame.colorGrid ∧
    GridOK (clearLines stackedGame).grid ∧ GridOK (clearLines stackedGame).colorGrid :=
  ⟨by decide, by decide,
    (clearLines_keeps_rows stackedGame (by decide) (by decide)).elim
      fun _ h => h.2.2.2.2.2.1,
    (clearLines_keeps_rows stackedGame (by decide) (by decide)).elim
      fun _ h => h.2.2.2.2.2.2⟩

/-- C18: on a `HEIGHT x WIDTH` board in which no two full rows are vertically
adjacent, `clearLines` removes all full rows.  With `k` the number of full rows,
the new grid is `k` all-empty rows followed by the original rows that are not
full, in their order, the new colour grid is `k` all-empty rows followed by the
colour rows of those rows, the new grid has no full row, and the score grows by
`100 * k`. -/
theorem clearLines_no_adjacent_full_rows (g : TetrisGame) (hg : GridOK g.grid)
    (hcg : GridOK g.colorGrid)
    (hadj : ∀ i, i + 1 < HEIGHT →
      ¬ (rowFull g.grid i = true ∧ rowFull g.grid (i + 1) = true)) :
    g.grid.countP rowIsFull = (List.range HEIGHT).countP (fun i => rowFull g.grid i) ∧
    (clearLines g).grid =
      List.replicate (g.grid.countP rowIsFull) emptyRow ++
        g.grid.filter (fun row => !rowIsFull row) ∧
    (clearLines g).colorGrid =
      List.replicate (g.grid.countP rowIsFull) emptyRow ++
        selectRows (g.grid.map (fun row => !rowIsFull row)) g.colorGrid ∧
    (∀ i, i < HEIGHT → rowFull (clearLines g).grid i = false) ∧
    (clearLines g).score = g.score + 100 * ((g.grid.countP rowIsFull : Nat) : Int) := by
  obtain ⟨flags, hsw, h1, h2, h3⟩ := clearLines_swept g hg.1 hcg.1
  have hchain : List.Chain' (fun r1 r2 => ¬ (rowIsFull r1 = true ∧ rowIsFull r2 = true))
      g.grid := by
    rw [List.chain'_iff_get]
    intro i hi
    have h := hadj i (by rw [← hg.1]; omega)
    rw [rowFull_eq, rowFull_eq, List.getD_eq_getElem _ _ (by omega),
      List.getD_eq_getElem _ _ (by omega)] at h
    exact h
  have hflags := Swept_of_no_adjacent hsw hchain
  have hsel := selectRows_not_full g.grid
  rw [hflags] at h1 h2 h3
  rw [hsel.2] at h1 h2 h3
  rw [hsel.1] at h1
  refine ⟨?_, h1, h2, ?_, h3⟩
  · rw [countP_rowFull, hg.1]
  · intro i hi
    rw [rowFull_eq, h1]
    have hok : GridOK (clearLines g).grid := by
      have := GridOK_swept g.grid flags hg (Swept_length hsw)
      rw [hflags, hsel.2, hsel.1] at this
      rw [h1]; exact this
    rw [h1] at hok
    rw [List.getD_eq_getElem _ _ (by rw [hok.1]; exact hi)]
    have hmem := List.getElem_mem (l := List.replicate (g.grid.countP rowIsFull) emptyRow ++
        g.grid.filter (fun row => !rowIsFull row)) (by rw [hok.1]; exact hi)
    rcases List.mem_append.1 hmem with h | h
    · rw [(List.mem_replicate.1 h).2]
      exact rowIsFull_emptyRow
    · have := (List.mem_filter.1 h).2
      simpa using this

set_option maxRecDepth 1000000 in
/-- Witness for `clearLines_no_adjacent_full_rows`: the board with the full rows
25, 27, 29 separated by gapped rows; the three full rows are removed and the
score grows by 300. -/
theorem clearLines_no_adjacent_full_rows_witness :
    GridOK alternatingGame.grid ∧ GridOK alternatingGame.colorGrid ∧
    alternatingGame.grid.countP rowIsFull = 3 ∧
    (clearLines alternatingGame).grid =
      List.replicate (alternatingGame.grid.countP rowIsFull) emptyRow ++
        alternatingGame.grid.filter (fun row => !rowIsFull row) ∧
    (clearLines alternatingGame).score
      = alternatingGame.score + 100 * ((alternatingGame.grid.countP rowIsFull : Nat) : Int) :=
  ⟨by decide, by decide, by decide,
    (clearLines_no_adjacent_full_rows alternatingGame (by decide) (by decide)
      (by
        intro i hi
        have hi2 : i < 29 := by unfold HEIGHT at hi; omega
        interval_cases i <;> decide)).2.1,
    (clearLines_no_adjacent_full_rows alternatingGame (by decide) (by decide)
      (by
        intro i hi
        have hi2 : i < 29 := by unfold HEIGHT at hi; omega
        interval_cases i <;> decide)).2.2.2.2⟩

set_option maxRecDepth 1000000 in
/-- C11 (the code at failing inputs): on the board whose rows 27 and 28 are full
above a gapped row, `clearLines` adds 100 to the score, not 200.  In the run of
the game loop that lays fifteen O pieces side by side, the hard drop of the last
piece completes rows 28 and 29 at once; `clearLines` adds 100 to the score and
leaves a full row in row 29. -/
theorem clearLines_score_adjacent_full_rows :
    (List.range HEIGHT).filter (fun i => rowFull stackedGame.grid i) = [27, 28] ∧
    (clearLines stackedGame).score = stackedGame.score + 100 ∧
    runKeys (randConst 1) FUEL (TetrisGame.initial (randConst 1)) (floorKeys.take 126)
      = some floorState ∧
    floorState.score = 0 ∧
    (update (randConst 1) floorState).map (fun r => (r.1, pieceView r.2))
      = some (true, (27, 15, [[0,0,0,0],[0,1,1,0],[0,1,1,0],[0,0,0,0]])) ∧
    (mergePiece { floorState with
        currentPiece := { floorState.currentPiece with y := 27 } }).map
        (fun g1 => (List.range HEIGHT).filter (fun i => rowFull g1.grid i)) = some [28, 29] ∧
    (mergePiece { floorState with
        currentPiece := { floorState.currentPiece with y := 27 } }).map
        (fun g1 => (clearLines g1).score) = some 100 ∧
    floorKeys.drop 126 = [KEY_h] ∧
    (runPass (randConst 1) FUEL floorState KEY_h).map (fun g => (g.score, rowFull g.grid 29))
      = some (100, true) := by
  refine ⟨?_, ?_, ?_, ?_, ?_, ?_, ?_, ?_, ?_⟩ <;> decide

end Tetris
